import Mathlib

/-! ErriezSerialTerminal: a shallow embedding of the line parser and dispatcher.

The development follows `src/ErriezSerialTerminal.cpp` and `src/ErriezSerialTerminal.h`.

* A `char` is its byte value, a natural number below 256.
* Memory that the C code walks with a pointer is a `List Nat`; a pointer into the receive
  buffer is an index into `_rxBuffer`, the null pointer is `none`.
* The transport (`Serial`) is the list of bytes that one `readSerial` call drains, and the
  list of `Event`s the call produces (bytes echoed and callbacks invoked, in order).
* An application callback is opaque to the library.  It is represented by an identifier and
  by the sequence of `getNext` / `getRemaining` calls it makes while it runs; the strings it
  reads through the returned pointers are recorded in the event of its invocation.
-/

namespace ErriezSerialTerminal

/-! ## Constants of `ErriezSerialTerminal.h` -/

/-- Size of the serial receive buffer in bytes (`#define ST_RX_BUFFER_SIZE 32`). -/
abbrev ST_RX_BUFFER_SIZE : Nat := 32

/-- Number of command characters (`#define ST_NUM_COMMAND_CHARS 8`). -/
abbrev ST_NUM_COMMAND_CHARS : Nat := 8

/-! ## The C library functions the source calls -/

/-- The function `isprint` of `<ctype.h>` in the C locale: the bytes 0x20 to 0x7E. -/
def isprint (c : Nat) : Bool := decide (32 ≤ c) && decide (c ≤ 126)

/-- The characters of the C string that starts at the head of `mem`: the bytes before the
first NUL.  Memory past the end of the list reads as NUL. -/
def cstr (mem : List Nat) : List Nat := mem.takeWhile (fun c => c != 0)

/-- The function `strspn` of `<string.h>`: length of the longest prefix of the C string at
`mem` made of characters of `accept` only. -/
def strspn (mem accept : List Nat) : Nat :=
  (mem.takeWhile (fun c => c != 0 && accept.contains c)).length

/-- The function `strcspn` of `<string.h>`: length of the longest prefix of the C string at
`mem` made of characters not in `reject`. -/
def strcspn (mem reject : List Nat) : Nat :=
  (mem.takeWhile (fun c => c != 0 && !reject.contains c)).length

/-- The function `strncpy` of `<string.h>`: the `n` bytes written to the destination, the
characters of the C string `src` (at most `n` of them) padded with NUL up to `n` bytes. -/
def strncpy (src : List Nat) (n : Nat) : List Nat :=
  (cstr src).take n ++ List.replicate (n - ((cstr src).take n).length) 0

/-- The function `strncmp` of `<string.h>`: compares at most `n` characters of the C strings at
`s1` and `s2`; zero exactly when no difference is found before a common NUL or the `n`-th
character. -/
def strncmp : List Nat → List Nat → Nat → Int
  | _, _, 0 => 0
  | s1, s2, n + 1 =>
    if s1.headD 0 ≠ s2.headD 0 then (s1.headD 0 : Int) - (s2.headD 0 : Int)
    else if s1.headD 0 = 0 then 0
    else strncmp s1.tail s2.tail n

/-- What one call of `strtok_r` leaves behind: the memory (a delimiter may have been
overwritten with NUL), the saved position, and the returned pointer. -/
structure StrtokResult where
  mem : List Nat
  save : Nat
  token : Option Nat
deriving DecidableEq, Repr

/-- The function `strtok_r` of `<string.h>` on the array `mem`, started at index `s` (the
string argument, or the saved position when that argument is `NULL`), with the delimiter
set `delim`.  The C library is not part of the repository; the model follows the POSIX
contract in the form of the usual implementation, which leaves the saved position at the
terminator once the string is used up:

```
if (*s == 0) { *save = s; return NULL; }
s += strspn(s, delim);
if (*s == 0) { *save = s; return NULL; }
end = s + strcspn(s, delim);
if (*end == 0) { *save = end; return s; }
*end = 0; *save = end + 1; return s;
```
-/
def strtok_r (mem : List Nat) (s : Nat) (delim : List Nat) : StrtokResult :=
  if mem.getD s 0 = 0 then ⟨mem, s, none⟩
  else
    let s1 := s + strspn (mem.drop s) delim
    if mem.getD s1 0 = 0 then ⟨mem, s1, none⟩
    else
      let e := s1 + strcspn (mem.drop s1) delim
      if mem.getD e 0 = 0 then ⟨mem, e, some s1⟩
      else ⟨mem.set e 0, e + 1, some s1⟩

/-! ## Callbacks and events -/

/-- The two tokenizer entry points a callback may call while it runs. -/
inductive TokCall where
  | getNext
  | getRemaining
deriving DecidableEq, Repr

/-- An application callback (a non-null function pointer): its identity and the tokenizer
calls it makes, in order. -/
structure Callback where
  id : Nat
  calls : List TokCall
deriving DecidableEq, Repr

/-- What a `readSerial` call does to the outside world. -/
inductive Event where
  /-- The call `Serial.println()`. -/
  | println
  /-- The call `Serial.print(c)`. -/
  | print (c : Nat)
  /-- A command callback was invoked; `returned` are the strings its tokenizer calls gave. -/
  | command (function : Callback) (returned : List (Option (List Nat)))
  /-- The default callback was invoked with the string `arg`. -/
  | defaultHandler (function : Callback) (arg : List Nat) (returned : List (Option (List Nat)))
  /-- The post command callback was invoked. -/
  | postCommand (function : Callback) (returned : List (Option (List Nat)))
deriving DecidableEq, Repr

/-! ## The class `SerialTerminal` -/

/-- The struct `SerialTerminalCallback`: of the array `char command[ST_NUM_COMMAND_CHARS + 1]`
the field holds the `ST_NUM_COMMAND_CHARS` bytes that `addCommand` writes; the last byte of
the array is never written and never read. -/
structure SerialTerminalCallback where
  command : List Nat
  function : Callback
deriving DecidableEq, Repr

/-- The data members of `SerialTerminal`.  The members `_postCommandHandler` and `doCharEcho`
are used by the `.cpp` file; their declarations are not part of the header at hand. -/
structure SerialTerminal where
  _commandList : List SerialTerminalCallback
  _numCommands : Nat
  _newlineChar : Nat
  _delimiter : List Nat
  _rxBuffer : List Nat
  _rxBufferIndex : Nat
  _lastPos : Option Nat
  _defaultHandler : Option Callback
  _postCommandHandler : Option Callback
  doCharEcho : Bool
deriving DecidableEq, Repr

/-- The method `clearBuffer`. -/
def clearBuffer (t : SerialTerminal) : SerialTerminal :=
  { t with _rxBuffer := t._rxBuffer.set 0 0, _rxBufferIndex := 0 }

/-- The constructor.  It initialises `_commandList`, `_numCommands`, `_newlineChar`,
`_lastPos`, `_defaultHandler` and `_delimiter`, and calls `clearBuffer`.  The bytes of
`_rxBuffer`, `_rxBufferIndex`, `_postCommandHandler` and `doCharEcho` are not initialised by
it: their values before the constructor body runs are taken from `uninit`. -/
def new (newlineChar delimiterChar : Nat) (uninit : SerialTerminal) : SerialTerminal :=
  clearBuffer
    { uninit with
      _commandList := []
      _numCommands := 0
      _newlineChar := newlineChar
      _lastPos := none
      _defaultHandler := none
      _delimiter := [delimiterChar, 0] }

/-- The method `addCommand`.  `realloc` keeps the first `_numCommands` entries of the array
and makes room for entry `_numCommands`, which is then written; `_numCommands` is a `byte`,
so the increment is modulo 256. -/
def addCommand (t : SerialTerminal) (command : List Nat) (function : Callback) :
    SerialTerminal :=
  { t with
    _commandList :=
      t._commandList.take t._numCommands ++ [⟨strncpy command ST_NUM_COMMAND_CHARS, function⟩]
    _numCommands := (t._numCommands + 1) % 256 }

/-- The method `setSerialEcho`. -/
def setSerialEcho (t : SerialTerminal) (doEcho : Bool) : SerialTerminal :=
  { t with doCharEcho := doEcho }

/-- The method `setPostCommandHandler`. -/
def setPostCommandHandler (t : SerialTerminal) (function : Option Callback) : SerialTerminal :=
  { t with _postCommandHandler := function }

/-- The method `setDefaultHandler`. -/
def setDefaultHandler (t : SerialTerminal) (function : Option Callback) : SerialTerminal :=
  { t with _defaultHandler := function }

/-- The call `strtok_r(NULL, delim, &_lastPos)` shared by `getNext` and `getRemaining`.  The
source has no guard for `_lastPos == NULL`, the value the constructor stores: `strtok_r` then
reads through the null pointer, and the call has no behaviour that could be described.  The
function is total, so its branch for `none` holds a placeholder, the object unchanged and
`NULL`; it stands for no behaviour of the code.  `processLine_calls_defined` shows that the
branch is not taken by the callbacks `readSerial` invokes, and `opDefined` keeps the calls of
the application off it. -/
def strtokNull (t : SerialTerminal) (delim : List Nat) : SerialTerminal × Option Nat :=
  match t._lastPos with
  | none => (t, none)
  | some s =>
    let r := strtok_r t._rxBuffer s delim
    ({ t with _rxBuffer := r.mem, _lastPos := some r.save }, r.token)

/-- The method `getNext`: `strtok_r(NULL, _delimiter, &_lastPos)`. -/
def getNext (t : SerialTerminal) : SerialTerminal × Option Nat :=
  strtokNull t (cstr t._delimiter)

/-- The method `getRemaining`: `strtok_r(NULL, "", &_lastPos)`. -/
def getRemaining (t : SerialTerminal) : SerialTerminal × Option Nat :=
  strtokNull t []

/-- The string a caller reads through a pointer returned by the tokenizer. -/
def readPtr (t : SerialTerminal) (p : Option Nat) : Option (List Nat) :=
  p.map (fun i => cstr (t._rxBuffer.drop i))

/-- One tokenizer call made by a callback, with the string it reads from the result. -/
def tokCall (t : SerialTerminal) : TokCall → SerialTerminal × Option (List Nat)
  | .getNext => ((getNext t).1, readPtr (getNext t).1 (getNext t).2)
  | .getRemaining => ((getRemaining t).1, readPtr (getRemaining t).1 (getRemaining t).2)

/-- A callback runs: its tokenizer calls are made in order. -/
def runCalls (t : SerialTerminal) : List TokCall → SerialTerminal × List (Option (List Nat))
  | [] => (t, [])
  | c :: cs => ((runCalls (tokCall t c).1 cs).1, (tokCall t c).2 :: (runCalls (tokCall t c).1 cs).2)

/-- The `for` loop of `readSerial`: the first entry whose name compares equal to the string at
`command` under `strncmp(..., ST_NUM_COMMAND_CHARS)`. -/
def findCommand (command : List Nat) :
    List SerialTerminalCallback → Option SerialTerminalCallback
  | [] => none
  | e :: es =>
    if strncmp command e.command ST_NUM_COMMAND_CHARS = 0 then some e
    else findCommand command es

/-- The state of the loop of `readSerial`: the object, the local `matched`, and the events
produced so far. -/
structure Loop where
  term : SerialTerminal
  matched : Bool
  events : List Event
deriving DecidableEq, Repr

/-- The branch `if (command != NULL) { ... }` of `readSerial`, for the token at index
`command`. -/
def dispatch (t : SerialTerminal) (matched : Bool) (command : Nat) : Loop :=
  match findCommand (t._rxBuffer.drop command) (t._commandList.take t._numCommands) with
  | some e => ⟨(runCalls t e.function.calls).1, true,
      [Event.command e.function (runCalls t e.function.calls).2]⟩
  | none =>
    match matched, t._defaultHandler with
    | false, some f => ⟨(runCalls t f.calls).1, false,
        [Event.defaultHandler f (cstr (t._rxBuffer.drop command)) (runCalls t f.calls).2]⟩
    | _, _ => ⟨t, matched, []⟩

/-- The statement `if (_postCommandHandler) { (*_postCommandHandler)(); }`. -/
def runPost (t : SerialTerminal) : SerialTerminal × List Event :=
  match t._postCommandHandler with
  | some f => ((runCalls t f.calls).1, [Event.postCommand f (runCalls t f.calls).2])
  | none => (t, [])

/-- The statement `command = strtok_r(_rxBuffer, _delimiter, &_lastPos)` of `readSerial`. -/
def strtokBuffer (t : SerialTerminal) : SerialTerminal × Option Nat :=
  ({ t with
      _rxBuffer := (strtok_r t._rxBuffer 0 (cstr t._delimiter)).mem
      _lastPos := some (strtok_r t._rxBuffer 0 (cstr t._delimiter)).save },
   (strtok_r t._rxBuffer 0 (cstr t._delimiter)).token)

/-- The statement `if (command != NULL) { ... }` of `readSerial`. -/
def dispatchToken (t : SerialTerminal) (matched : Bool) : Option Nat → Loop
  | some command => dispatch t matched command
  | none => ⟨t, matched, []⟩

/-- The statement `if (doCharEcho) { Serial.println(); }`. -/
def echoNewline (t : SerialTerminal) : List Event :=
  if t.doCharEcho then [Event.println] else []

/-- The branch `if (c == _newlineChar) { ... }` of `readSerial` up to, and excluding, the
final `clearBuffer()`: echo, tokenize, dispatch, post command handler. -/
def processLine (t : SerialTerminal) (matched : Bool) : Loop :=
  ⟨(runPost (dispatchToken (strtokBuffer t).1 matched (strtokBuffer t).2).term).1,
   (dispatchToken (strtokBuffer t).1 matched (strtokBuffer t).2).matched,
   echoNewline t ++ (dispatchToken (strtokBuffer t).1 matched (strtokBuffer t).2).events ++
     (runPost (dispatchToken (strtokBuffer t).1 matched (strtokBuffer t).2).term).2⟩

/-- The branch `else if (isprint(c)) { ... }` of `readSerial`. -/
def storeChar (t : SerialTerminal) (c : Nat) : SerialTerminal × List Event :=
  (if t._rxBufferIndex < ST_RX_BUFFER_SIZE then
      { t with
        _rxBuffer := (t._rxBuffer.set t._rxBufferIndex c).set (t._rxBufferIndex + 1) 0
        _rxBufferIndex := t._rxBufferIndex + 1 }
    else t,
   if t.doCharEcho then [Event.print c] else [])

/-- One iteration of the `while` loop of `readSerial`, for the character `c` read. -/
def readSerialStep (t : SerialTerminal) (matched : Bool) (c : Nat) : Loop :=
  if c = t._newlineChar then
    ⟨clearBuffer (processLine t matched).term, (processLine t matched).matched,
      (processLine t matched).events⟩
  else if isprint c = true then ⟨(storeChar t c).1, matched, (storeChar t c).2⟩
  else ⟨t, matched, []⟩

/-- The `while (Serial.available() > 0)` loop of `readSerial` over the bytes it reads. -/
def readSerialLoop (t : SerialTerminal) (matched : Bool) : List Nat → Loop
  | [] => ⟨t, matched, []⟩
  | c :: cs =>
    ⟨(readSerialLoop (readSerialStep t matched c).term (readSerialStep t matched c).matched cs).term,
     (readSerialLoop (readSerialStep t matched c).term (readSerialStep t matched c).matched cs).matched,
     (readSerialStep t matched c).events ++
       (readSerialLoop (readSerialStep t matched c).term
          (readSerialStep t matched c).matched cs).events⟩

/-- The method `readSerial`: the local `matched` starts as `false`, then the loop drains
`input`.  The result is the object afterwards and the events, in order. -/
def readSerial (t : SerialTerminal) (input : List Nat) : SerialTerminal × List Event :=
  ((readSerialLoop t false input).term, (readSerialLoop t false input).events)

/-! ## The tokenizer and the dispatcher seen on lists

The functions of this section do not belong to the source.  They describe what the source
computes on the string that is left to tokenize, without buffer, indices or pointers; the
theorems of the first part relate them to the functions above. -/

/-- One `strtok_r` step on the string `rest` that is left: the token found, if any, and the
string left after it. -/
def nextToken (delim rest : List Nat) : Option (List Nat) × List Nat :=
  if rest.dropWhile (fun c => delim.contains c) = [] then (none, [])
  else (some ((rest.dropWhile (fun c => delim.contains c)).takeWhile (fun c => !delim.contains c)),
        (((rest.dropWhile (fun c => delim.contains c)).dropWhile (fun c => !delim.contains c))).drop 1)

/-- One tokenizer call on the string left: `getRemaining` is a step with no delimiter. -/
def absCall (delim rest : List Nat) : TokCall → Option (List Nat) × List Nat
  | .getNext => nextToken delim rest
  | .getRemaining => nextToken [] rest

/-- The tokenizer calls of a callback on the string left: the strings returned, and the string
left afterwards. -/
def absRun (delim rest : List Nat) : List TokCall → List (Option (List Nat)) × List Nat
  | [] => ([], rest)
  | c :: cs => ((absCall delim rest c).1 :: (absRun delim (absCall delim rest c).2 cs).1,
      (absRun delim (absCall delim rest c).2 cs).2)

/-- The outcome of the dispatch of one line on lists: the flag `matched`, the events, and the
string left to tokenize. -/
structure LineResult where
  matched : Bool
  events : List Event
  rest : List Nat
deriving DecidableEq, Repr

/-- The dispatch of the captured line `cap`: first token, lookup, command or default
callback. -/
def lineDispatch (t : SerialTerminal) (matched : Bool) (cap : List Nat) : LineResult :=
  match (nextToken (cstr t._delimiter) cap).1 with
  | none => ⟨matched, [], (nextToken (cstr t._delimiter) cap).2⟩
  | some tok =>
    match findCommand tok (t._commandList.take t._numCommands) with
    | some e => ⟨true,
        [Event.command e.function
          (absRun (cstr t._delimiter) (nextToken (cstr t._delimiter) cap).2 e.function.calls).1],
        (absRun (cstr t._delimiter) (nextToken (cstr t._delimiter) cap).2 e.function.calls).2⟩
    | none =>
      match matched, t._defaultHandler with
      | false, some f => ⟨false,
          [Event.defaultHandler f tok
            (absRun (cstr t._delimiter) (nextToken (cstr t._delimiter) cap).2 f.calls).1],
          (absRun (cstr t._delimiter) (nextToken (cstr t._delimiter) cap).2 f.calls).2⟩
      | _, _ => ⟨matched, [], (nextToken (cstr t._delimiter) cap).2⟩

/-- The event of the post command callback when `rest` is left to tokenize. -/
def linePost (t : SerialTerminal) (rest : List Nat) : List Event :=
  match t._postCommandHandler with
  | some f => [Event.postCommand f (absRun (cstr t._delimiter) rest f.calls).1]
  | none => []

/-- The events of the newline branch for the captured line `cap`. -/
def lineEvents (t : SerialTerminal) (matched : Bool) (cap : List Nat) : List Event :=
  echoNewline t ++ (lineDispatch t matched cap).events ++
    linePost t (lineDispatch t matched cap).rest

/-- The echo of the characters of a line. -/
def echoChars (t : SerialTerminal) (line : List Nat) : List Event :=
  if t.doCharEcho then (line.filter isprint).map Event.print else []

/-- The characters of `line` that are stored when the buffer holds `n` characters already:
the printable ones, as many as still fit. -/
def captureFrom (n : Nat) (line : List Nat) : List Nat :=
  (line.filter isprint).take (ST_RX_BUFFER_SIZE - n)

/-- The object with the receive buffer, its index and the tokenizer position blanked: what
the tokenizer and the character store never change. -/
def config (t : SerialTerminal) : SerialTerminal :=
  { t with _rxBuffer := [], _rxBufferIndex := 0, _lastPos := none }

/-- The array `buf` holds at index `p` the NUL-free string `rest` followed by a NUL. -/
def BufAt (buf : List Nat) (p : Nat) (rest : List Nat) : Prop :=
  ∃ pre post, buf = pre ++ (rest ++ 0 :: post) ∧ pre.length = p ∧ ∀ c ∈ rest, c ≠ 0

/-- The pointer `ptr` into `mem` is null when `tok` is absent, and otherwise points at the
non-empty NUL-terminated string `tok`. -/
def PtrReads (mem : List Nat) : Option Nat → Option (List Nat) → Prop
  | none, none => True
  | some i, some tok => ∃ post, mem.drop i = tok ++ 0 :: post ∧ tok ≠ [] ∧ ∀ c ∈ tok, c ≠ 0
  | _, _ => False

/-- The tokenizer position stands before the NUL-terminated string `rest` of the buffer. -/
def Tokenizing (t : SerialTerminal) (rest : List Nat) : Prop :=
  ∃ p, t._lastPos = some p ∧ BufAt t._rxBuffer p rest

/-- The receive buffer is a 33 byte array that holds the NUL-free string `cap`, terminated,
and `_rxBufferIndex` is its length. -/
def Captured (t : SerialTerminal) (cap : List Nat) : Prop :=
  t._rxBuffer.length = ST_RX_BUFFER_SIZE + 1 ∧ t._rxBufferIndex = cap.length ∧
    (∃ post, t._rxBuffer = cap ++ 0 :: post) ∧ ∀ c ∈ cap, c ≠ 0

/-- The tokenizer is exhausted: no line was tokenized yet, or the saved position is at a
NUL. -/
def Exhausted (t : SerialTerminal) : Prop :=
  match t._lastPos with
  | none => True
  | some p => t._rxBuffer.getD p 0 = 0

/-! ## Vocabulary of the specification -/

/-- The maximal non-empty runs of non-delimiter characters of `line`, in order. -/
def tokensOf (delim line : List Nat) : List (List Nat) :=
  (line.splitOnP (fun c => delim.contains c)).filter (fun run => !run.isEmpty)

/-- What is left of the string `s` after its first token and the single delimiter that ends
the token. -/
def dropToken (delim s : List Nat) : List Nat :=
  (((s.dropWhile (fun c => delim.contains c)).dropWhile (fun c => !delim.contains c))).drop 1

/-- A rest of line as `getRemaining` reports it: none when it is empty. -/
def restOrNone (rest : List Nat) : Option (List Nat) :=
  if rest = [] then none else some rest

/-- The receive buffer is empty, as the constructor and `clearBuffer` leave it: the array has
its 33 bytes, the length is 0 and the first byte is the terminator. -/
def RxEmpty (t : SerialTerminal) : Prop :=
  t._rxBuffer.length = ST_RX_BUFFER_SIZE + 1 ∧ t._rxBufferIndex = 0 ∧ t._rxBuffer.head? = some 0

instance instDecidableRxEmpty (t : SerialTerminal) : Decidable (RxEmpty t) := by
  unfold RxEmpty; infer_instance

/-- The event is the invocation of a command callback. -/
def Event.isCommand : Event → Bool
  | .command _ _ => true
  | _ => false

/-- The event is the invocation of the default callback. -/
def Event.isDefault : Event → Bool
  | .defaultHandler _ _ _ => true
  | _ => false

/-- The event is the invocation of the post command callback. -/
def Event.isPost : Event → Bool
  | .postCommand _ _ => true
  | _ => false

/-- The invocations of command callbacks and of the default callback among `events`. -/
def handlerEvents (events : List Event) : List Event :=
  events.filter (fun e => e.isCommand || e.isDefault)

/-- The entry `addCommand` writes for the name `command` and the callback `function`. -/
def entryOf (command : List Nat) (function : Callback) : SerialTerminalCallback :=
  ⟨strncpy command ST_NUM_COMMAND_CHARS, function⟩

/-- Successive `addCommand` calls, one per registration. -/
def addCommands (t : SerialTerminal) (regs : List (List Nat × Callback)) : SerialTerminal :=
  regs.foldl (fun s r => addCommand s r.1 r.2) t

/-- The entries the lookup of `readSerial` examines: the first `_numCommands` of the array. -/
def commandTable (t : SerialTerminal) : List SerialTerminalCallback :=
  t._commandList.take t._numCommands

/-! ## Calls of the public interface and writes to the receive buffer -/

/-- The index of `mem` that `strtok_r` overwrites with NUL, if it overwrites one: the
position `end` of the last branch of the function. -/
def strtokWrite (mem : List Nat) (s : Nat) (delim : List Nat) : Option Nat :=
  if mem.getD s 0 = 0 then none
  else if mem.getD (s + strspn (mem.drop s) delim) 0 = 0 then none
  else if mem.getD (s + strspn (mem.drop s) delim +
      strcspn (mem.drop (s + strspn (mem.drop s) delim)) delim) 0 = 0 then none
  else some (s + strspn (mem.drop s) delim +
      strcspn (mem.drop (s + strspn (mem.drop s) delim)) delim)

/-- The memory after a write of NUL at the index `w`, if there is one. -/
def writeNul (mem : List Nat) : Option Nat → List Nat
  | none => mem
  | some e => mem.set e 0

/-- A call of the public interface, as the application makes it. -/
inductive Op where
  | addCommand (command : List Nat) (function : Callback)
  | setSerialEcho (doEcho : Bool)
  | setPostCommandHandler (function : Option Callback)
  | setDefaultHandler (function : Option Callback)
  | clearBuffer
  | getNext
  | getRemaining
  | readSerial (input : List Nat)
deriving DecidableEq, Repr

/-- The object after one call of the public interface. -/
def applyOp (t : SerialTerminal) : Op → SerialTerminal
  | .addCommand command function => addCommand t command function
  | .setSerialEcho doEcho => setSerialEcho t doEcho
  | .setPostCommandHandler function => setPostCommandHandler t function
  | .setDefaultHandler function => setDefaultHandler t function
  | .clearBuffer => clearBuffer t
  | .getNext => (getNext t).1
  | .getRemaining => (getRemaining t).1
  | .readSerial input => (readSerial t input).1

/-- The object after a sequence of calls of the public interface. -/
def applyOps (t : SerialTerminal) (ops : List Op) : SerialTerminal :=
  ops.foldl applyOp t

/-- The tokenizer has a saved position: `_lastPos` is not `NULL`.  Only then is the call
`strtok_r(NULL, delim, &_lastPos)` of `getNext` and `getRemaining` defined. -/
def tokenizerDefined (t : SerialTerminal) : Bool := t._lastPos.isSome

/-- Every tokenizer call of the sequence `calls`, made in order from the object `t`, is made
with a saved position. -/
def callsDefined (t : SerialTerminal) : List TokCall → Bool
  | [] => true
  | c :: cs => tokenizerDefined t && callsDefined (tokCall t c).1 cs

/-- The call `op` of the application has defined behaviour on the object `t`.  `postSet` tells
whether `setPostCommandHandler` has been called since the constructor, which does not
initialise `_postCommandHandler`.  `getNext` and `getRemaining` need a saved position;
`readSerial` calls through `_postCommandHandler` at every newline, so on an input with a
newline character the member must be null or have been set. -/
def opDefined (t : SerialTerminal) (postSet : Bool) : Op → Bool
  | .getNext => tokenizerDefined t
  | .getRemaining => tokenizerDefined t
  | .readSerial input =>
    postSet || t._postCommandHandler.isNone || !input.contains t._newlineChar
  | _ => true

/-- Whether `setPostCommandHandler` has been called, after the call `op`. -/
def postSetAfter (postSet : Bool) : Op → Bool
  | .setPostCommandHandler _ => true
  | _ => postSet

/-- The object after a sequence of calls of the application, when every call of the sequence
has defined behaviour; none as soon as one has not.  The second component tells whether
`setPostCommandHandler` has been called. -/
def runOps (t : SerialTerminal) (postSet : Bool) : List Op → Option (SerialTerminal × Bool)
  | [] => some (t, postSet)
  | op :: ops =>
    if opDefined t postSet op = true then runOps (applyOp t op) (postSetAfter postSet op) ops
    else none

/-- The indices of `_rxBuffer` that the statements of one iteration of the loop of
`readSerial` write: the NUL that `strtok_r(_rxBuffer, ...)` stores and byte 0 cleared by
`clearBuffer` in the newline branch, the character and its terminator in the printable
branch. -/
def stepWrites (t : SerialTerminal) (c : Nat) : List Nat :=
  if c = t._newlineChar then
    (strtokWrite t._rxBuffer 0 (cstr t._delimiter)).toList ++ [0]
  else if isprint c = true then
    (if t._rxBufferIndex < ST_RX_BUFFER_SIZE then [t._rxBufferIndex, t._rxBufferIndex + 1]
     else [])
  else []

/-- The indices of `_rxBuffer` written by the statements of `readSerial` while it drains the
input. -/
def readSerialWrites (t : SerialTerminal) (matched : Bool) : List Nat → List Nat
  | [] => []
  | c :: cs => stepWrites t c ++
      readSerialWrites (readSerialStep t matched c).term (readSerialStep t matched c).matched cs

/-- The invariant of the receive buffer: the array has its 33 bytes, the length is at most 32
and the byte at the length is the terminator. -/
def BufferInv (t : SerialTerminal) : Prop :=
  t._rxBuffer.length = ST_RX_BUFFER_SIZE + 1 ∧ t._rxBufferIndex ≤ ST_RX_BUFFER_SIZE ∧
    t._rxBuffer[t._rxBufferIndex]? = some 0

/-! ## Sample data for the examples -/

/-- Memory of an object before its constructor runs, for the examples: a 33 byte buffer of
0xFF bytes, no post command callback, echo off. -/
def sampleUninit : SerialTerminal :=
  ⟨[], 7, 0, [], List.replicate 33 255, 99, some 5, none, none, false⟩

/-- The terminal `SerialTerminal('\n', ' ')` of the examples. -/
def sampleTerminal : SerialTerminal := new 10 32 sampleUninit

/-- The name `LED`. -/
def nameLED : List Nat := [76, 69, 68]

/-- A callback that calls `getNext` twice. -/
def cbTwoNext : Callback := ⟨1, [TokCall.getNext, TokCall.getNext]⟩

/-- A callback that makes no tokenizer call. -/
def cbPlain : Callback := ⟨2, []⟩

/-- Another callback that makes no tokenizer call. -/
def cbOther : Callback := ⟨3, []⟩

/-- The line `LED ON`, without its newline. -/
def lineLedOn : List Nat := [76, 69, 68, 32, 79, 78]

/-- A callback that calls `getNext` once and `getRemaining` after it. -/
def cbNextRest : Callback := ⟨4, [TokCall.getNext, TokCall.getRemaining]⟩

/-- The name `LONGCOMMAND1`. -/
def nameLong1 : List Nat := [76, 79, 78, 71, 67, 79, 77, 77, 65, 78, 68, 49]

/-- The name `LONGCOMMAND2`. -/
def nameLong2 : List Nat := [76, 79, 78, 71, 67, 79, 77, 77, 65, 78, 68, 50]

/-- The line `LED ON  a b`, without its newline. -/
def lineLedOnAB : List Nat := [76, 69, 68, 32, 79, 78, 32, 32, 97, 32, 98]

/-- A line of 40 printable characters, `0` to `W` in ASCII order, without its newline. -/
def lineForty : List Nat := (List.range 40).map (fun i => i + 48)

/-- The token `LONGCOMMANDWITHSUFFIX`, 20 characters, without the last one. -/
def tokenTwenty : List Nat :=
  [76, 79, 78, 71, 67, 79, 77, 77, 65, 78, 68, 87, 73, 84, 72, 83, 85, 70, 70, 73]

/-- The sample terminal with `LED` registered for `cbTwoNext`. -/
def termLed : SerialTerminal := addCommand sampleTerminal nameLED cbTwoNext

/-- The sample terminal with `LED` registered for `cbNextRest`. -/
def termLedRest : SerialTerminal := addCommand sampleTerminal nameLED cbNextRest

/-- The sample terminal with `LED` registered twice, for `cbPlain` and then for `cbOther`. -/
def termTwoLeds : SerialTerminal :=
  addCommands sampleTerminal [(nameLED, cbPlain), (nameLED, cbOther)]

/-- The sample terminal with `LONGCOMMAND1` and `LED` registered and a default callback. -/
def termLongLed : SerialTerminal :=
  setDefaultHandler (addCommands sampleTerminal [(nameLong1, cbPlain), (nameLED, cbTwoNext)])
    (some cbOther)

/-- The sample terminal with `LONGCOMMAND1` registered for `cbPlain` and `LONGCOMMAND2` for
`cbOther`. -/
def termLongs : SerialTerminal :=
  addCommands sampleTerminal [(nameLong1, cbPlain), (nameLong2, cbOther)]

/-- The sample terminal with `LED` registered for `cbPlain` and the default callback
`cbOther`. -/
def termLedDefault : SerialTerminal :=
  setDefaultHandler (addCommand sampleTerminal nameLED cbPlain) (some cbOther)

/-- The sample terminal `termLed` with the post command callback `cbPlain`. -/
def termLedPost : SerialTerminal := setPostCommandHandler termLed (some cbPlain)

/-- The object `termLed` after the line `LED` was stored and tokenized: the tokenizer stands
at the end of the line. -/
def termLedTokenized : SerialTerminal :=
  (strtokBuffer (readSerialLoop termLed false nameLED).term).1

/-- The line made of 30 spaces followed by `LED`, without its newline: 33 characters. -/
def lineSpacesLed : List Nat := List.replicate 30 32 ++ nameLED

/-- The sample terminal `termLedDefault` with echo enabled. -/
def termLedDefaultEcho : SerialTerminal := setSerialEcho termLedDefault true

/-- The sample terminal with echo enabled. -/
def termEcho : SerialTerminal := setSerialEcho sampleTerminal true

/-- A line of 33 letters `A`, without its newline. -/
def lineThirtyThree : List Nat := List.replicate 33 65

/-- Memory of an object before its constructor runs, for the examples: as `sampleUninit`, but
with non-zero bytes where `_postCommandHandler` and `doCharEcho` are stored. -/
def dirtyUninit : SerialTerminal :=
  ⟨[], 7, 0, [], List.replicate 33 255, 99, some 5, none, some cbPlain, true⟩

/-- The terminal `SerialTerminal('\n', '\t')` with `LED` registered for `cbTwoNext`. -/
def termTabLed : SerialTerminal := addCommand (new 10 9 sampleUninit) nameLED cbTwoNext

/-- The name `LONGCOMM`, the first 8 characters of `LONGCOMMAND1`. -/
def nameLongComm : List Nat := [76, 79, 78, 71, 67, 79, 77, 77]

/-- The sample terminal with `LONGCOMMAND1` registered for `cbPlain` and then `LONGCOMM` for
`cbTwoNext`. -/
def termLongShadow : SerialTerminal :=
  addCommands sampleTerminal [(nameLong1, cbPlain), (nameLongComm, cbTwoNext)]

/-! ## Part 1: the source functions and their view on lists -/

theorem set_at_append (a b : List Nat) (x y i : Nat) (hi : i = a.length) :
    (a ++ x :: b).set i y = a ++ y :: b := by
  subst hi
  induction a with
  | nil => simp
  | cons c a ih => simp [ih]

theorem getD_at_append (a b : List Nat) (x i : Nat) (hi : i = a.length) :
    (a ++ x :: b).getD i 0 = x := by
  subst hi
  induction a with
  | nil => simp
  | cons c a ih => simpa using ih

theorem drop_at_append (a b : List Nat) (i : Nat) (hi : i = a.length) :
    (a ++ b).drop i = b := by
  subst hi; simp

theorem takeWhile_stop (q : Nat → Bool) (a b : List Nat) (x : Nat)
    (ha : ∀ c ∈ a, q c = true) (hx : q x = false) :
    (a ++ x :: b).takeWhile q = a := by
  induction a with
  | nil => simp [hx]
  | cons c a ih =>
    simp [List.takeWhile_cons, ha c (by simp), ih (fun y hy => ha y (by simp [hy]))]

theorem strspn_stop (ds tail delim : List Nat) (x : Nat)
    (hds : ∀ c ∈ ds, c ≠ 0 ∧ c ∈ delim)
    (hx : x = 0 ∨ x ∉ delim) :
    strspn (ds ++ x :: tail) delim = ds.length := by
  unfold strspn
  rw [takeWhile_stop]
  · intro c hc; simp [(hds c hc).1, (hds c hc).2]
  · rcases hx with h | h <;> simp [h]

theorem strcspn_stop (tok tail delim : List Nat) (x : Nat)
    (htok : ∀ c ∈ tok, c ≠ 0 ∧ c ∉ delim)
    (hx : x = 0 ∨ x ∈ delim) :
    strcspn (tok ++ x :: tail) delim = tok.length := by
  unfold strcspn
  rw [takeWhile_stop]
  · intro c hc; simp [(htok c hc).1, (htok c hc).2]
  · rcases hx with h | h <;> simp [h]

/-- no token: only delimiters up to the terminator -/
theorem strtok_r_none (pre ds post delim : List Nat)
    (hds : ∀ c ∈ ds, c ≠ 0 ∧ c ∈ delim) :
    strtok_r (pre ++ (ds ++ 0 :: post)) pre.length delim =
      ⟨pre ++ (ds ++ 0 :: post), pre.length + ds.length, none⟩ := by
  unfold strtok_r
  by_cases h0 : (pre ++ (ds ++ 0 :: post)).getD pre.length 0 = 0
  · rw [if_pos h0]
    cases ds with
    | nil => simp
    | cons c ds =>
      exfalso
      rw [List.cons_append, getD_at_append pre _ c _ rfl] at h0
      exact (hds c (by simp)).1 h0
  · rw [if_neg h0, drop_at_append pre _ _ rfl,
      strspn_stop ds post delim 0 hds (Or.inl rfl)]
    have : (pre ++ (ds ++ 0 :: post)).getD (pre.length + ds.length) 0 = 0 := by
      rw [← List.append_assoc]; exact getD_at_append _ _ _ _ (by simp)
    rw [if_pos this]

/-- the common part of the two cases with a token: the scan for the start of the token -/
theorem strtok_r_token (pre ds tok tail delim : List Nat) (x : Nat)
    (hds : ∀ c ∈ ds, c ≠ 0 ∧ c ∈ delim)
    (htok : ∀ c ∈ tok, c ≠ 0 ∧ c ∉ delim) (hne : tok ≠ [])
    (hx : x = 0 ∨ x ∈ delim) :
    strtok_r (pre ++ (ds ++ (tok ++ x :: tail))) pre.length delim =
      if x = 0 then
        ⟨pre ++ (ds ++ (tok ++ x :: tail)), pre.length + ds.length + tok.length,
          some (pre.length + ds.length)⟩
      else
        ⟨pre ++ (ds ++ (tok ++ 0 :: tail)), pre.length + ds.length + tok.length + 1,
          some (pre.length + ds.length)⟩ := by
  obtain ⟨c, tok', rfl⟩ := List.exists_cons_of_ne_nil hne
  have hc := htok c (by simp)
  unfold strtok_r
  have h0 : ¬ (pre ++ (ds ++ (c :: tok' ++ x :: tail))).getD pre.length 0 = 0 := by
    cases ds with
    | nil =>
      rw [List.nil_append, List.cons_append, getD_at_append pre _ c _ rfl]; exact hc.1
    | cons d ds =>
      rw [List.cons_append, getD_at_append pre _ d _ rfl]; exact (hds d (by simp)).1
  rw [if_neg h0, drop_at_append pre _ _ rfl]
  have hspn : strspn (ds ++ (c :: tok' ++ x :: tail)) delim = ds.length := by
    rw [List.cons_append]
    exact strspn_stop ds (tok' ++ x :: tail) delim c hds (Or.inr hc.2)
  rw [hspn]
  have h1 : ¬ (pre ++ (ds ++ (c :: tok' ++ x :: tail))).getD (pre.length + ds.length) 0 = 0 := by
    rw [← List.append_assoc, List.cons_append, getD_at_append (pre ++ ds) _ c _ (by simp)]
    exact hc.1
  rw [if_neg h1]
  have hdrop : (pre ++ (ds ++ (c :: tok' ++ x :: tail))).drop (pre.length + ds.length)
      = (c :: tok') ++ x :: tail := by
    rw [← List.append_assoc]; exact drop_at_append _ _ _ (by simp)
  rw [hdrop, strcspn_stop (c :: tok') tail delim x htok hx]
  have hassoc : pre ++ (ds ++ (c :: tok' ++ x :: tail)) = (pre ++ ds ++ (c :: tok')) ++ x :: tail := by
    simp
  have h2 : (pre ++ (ds ++ (c :: tok' ++ x :: tail))).getD
      (pre.length + ds.length + (c :: tok').length) 0 = x := by
    rw [hassoc]; exact getD_at_append _ _ _ _ (by simp [Nat.add_assoc])
  simp only [h2]
  by_cases hx0 : x = 0
  · rw [if_pos hx0, if_pos hx0]
  · rw [if_neg hx0, if_neg hx0, hassoc, set_at_append _ _ _ _ _ (by simp [Nat.add_assoc])]
    simp

theorem mem_takeWhile_imp (q : Nat → Bool) (l : List Nat) : ∀ c ∈ l.takeWhile q, q c = true ∧ c ∈ l := by
  induction l with
  | nil => simp
  | cons a l ih =>
    intro c hc
    by_cases hq : q a = true
    · rw [List.takeWhile_cons_of_pos hq] at hc
      rcases List.mem_cons.1 hc with rfl | h
      · exact ⟨hq, by simp⟩
      · exact ⟨(ih c h).1, List.mem_cons_of_mem _ (ih c h).2⟩
    · rw [List.takeWhile_cons_of_neg hq] at hc; simp at hc

theorem mem_dropWhile_imp (q : Nat → Bool) (l : List Nat) : ∀ c ∈ l.dropWhile q, c ∈ l := by
  induction l with
  | nil => simp
  | cons a l ih =>
    intro c hc
    by_cases hq : q a = true
    · rw [List.dropWhile_cons_of_pos hq] at hc
      exact List.mem_cons_of_mem _ (ih c hc)
    · rw [List.dropWhile_cons_of_neg hq] at hc; exact hc

theorem dropWhile_head (q : Nat → Bool) (l : List Nat) (x : Nat) (tl : List Nat)
    (h : l.dropWhile q = x :: tl) : q x = false := by
  induction l with
  | nil => simp at h
  | cons a l ih =>
    by_cases hq : q a = true
    · rw [List.dropWhile_cons_of_pos hq] at h; exact ih h
    · rw [List.dropWhile_cons_of_neg hq] at h
      injection h with h1 h2
      subst h1; simpa using hq

theorem strtok_r_bufAt (buf rest delim : List Nat) (p : Nat)
    (h : BufAt buf p rest) :
    BufAt (strtok_r buf p delim).mem (strtok_r buf p delim).save (nextToken delim rest).2 ∧
    (strtok_r buf p delim).mem.length = buf.length ∧
    PtrReads (strtok_r buf p delim).mem (strtok_r buf p delim).token (nextToken delim rest).1 := by
  obtain ⟨pre, post, rfl, rfl, hnz⟩ := h
  have hsplit := List.takeWhile_append_dropWhile (fun c => delim.contains c) rest
  have hds : ∀ c ∈ rest.takeWhile (fun c => delim.contains c), c ≠ 0 ∧ c ∈ delim := by
    intro c hc
    have := mem_takeWhile_imp _ _ c hc
    exact ⟨hnz c this.2, by simpa using this.1⟩
  generalize hdsE : rest.takeWhile (fun c => delim.contains c) = ds at hsplit hds
  unfold nextToken
  cases hr1 : rest.dropWhile (fun c => delim.contains c) with
  | nil =>
    rw [hr1] at hsplit
    simp only [List.append_nil] at hsplit
    subst hsplit
    rw [strtok_r_none pre ds post delim hds]
    refine ⟨⟨pre ++ ds, post, by simp, by simp, by simp⟩, rfl, ?_⟩
    simp [PtrReads]
  | cons c r1 =>
    have hcd : c ∉ delim := by
      have := dropWhile_head _ _ _ _ hr1
      simpa using this
    have hr1mem : ∀ y ∈ c :: r1, y ∈ rest := by
      intro y hy; rw [← hr1] at hy; exact mem_dropWhile_imp _ _ y hy
    rw [hr1] at hsplit
    have hsplit2 := List.takeWhile_append_dropWhile (fun c => !delim.contains c) (c :: r1)
    have htok : ∀ y ∈ (c :: r1).takeWhile (fun c => !delim.contains c), y ≠ 0 ∧ y ∉ delim := by
      intro y hy
      have := mem_takeWhile_imp _ _ y hy
      exact ⟨hnz y (hr1mem y this.2), by simpa using this.1⟩
    have hne : (c :: r1).takeWhile (fun c => !delim.contains c) ≠ [] := by
      rw [List.takeWhile_cons_of_pos (by simpa using hcd)]; simp
    generalize htokE : (c :: r1).takeWhile (fun c => !delim.contains c) = tok at hsplit2 htok hne
    rw [if_neg (by simp)]
    cases hr2 : (c :: r1).dropWhile (fun c => !delim.contains c) with
    | nil =>
      rw [hr2] at hsplit2
      simp only [List.append_nil] at hsplit2
      rw [← hsplit2] at hsplit
      subst hsplit
      have := strtok_r_token pre ds tok post delim 0 hds htok hne (Or.inl rfl)
      rw [if_pos rfl] at this
      rw [List.append_assoc, this]
      refine ⟨⟨pre ++ ds ++ tok, post, by simp, by simp [Nat.add_assoc], by simp⟩, rfl, ?_⟩
      refine ⟨post, ?_, hne, fun y hy => (htok y hy).1⟩
      rw [← List.append_assoc]
      exact drop_at_append _ _ _ (by simp)
    | cons d r3 =>
      have hd : d ∈ delim := by
        have := dropWhile_head _ _ _ _ hr2
        simpa using this
      rw [hr2] at hsplit2
      rw [← hsplit2] at hsplit
      subst hsplit
      have hd0 : d ≠ 0 := hnz d (by simp)
      have := strtok_r_token pre ds tok (r3 ++ 0 :: post) delim d hds htok hne (Or.inr hd)
      rw [if_neg hd0] at this
      have hmem : pre ++ ((ds ++ (tok ++ d :: r3)) ++ 0 :: post)
          = pre ++ (ds ++ (tok ++ d :: (r3 ++ 0 :: post))) := by simp
      rw [hmem, this]
      refine ⟨⟨pre ++ ds ++ tok ++ [0], post, by simp, by simp [Nat.add_assoc],
        fun y hy => hnz y (by simp at hy ⊢; simp [hy])⟩, by simp, ?_⟩
      refine ⟨r3 ++ 0 :: post, ?_, hne, fun y hy => (htok y hy).1⟩
      rw [← List.append_assoc]
      exact drop_at_append _ _ _ (by simp)

theorem cstr_append_nul (rest post : List Nat) (h : ∀ c ∈ rest, c ≠ 0) :
    cstr (rest ++ 0 :: post) = rest := by
  unfold cstr
  exact takeWhile_stop _ _ _ _ (fun c hc => by simpa using h c hc) (by simp)

theorem readPtr_of_ptrReads (t : SerialTerminal) (ptr : Option Nat) (tok : Option (List Nat))
    (h : PtrReads t._rxBuffer ptr tok) : readPtr t ptr = tok := by
  cases ptr <;> cases tok <;> simp only [PtrReads] at h <;> try trivial
  obtain ⟨post, hdrop, _, hnz⟩ := h
  simp [readPtr, hdrop, cstr_append_nul _ _ hnz]

theorem strtokNull_spec (t : SerialTerminal) (rest delim : List Nat) (h : Tokenizing t rest) :
    Tokenizing (strtokNull t delim).1 (nextToken delim rest).2 ∧
    (strtokNull t delim).1._rxBuffer.length = t._rxBuffer.length ∧
    (strtokNull t delim).1._rxBufferIndex = t._rxBufferIndex ∧
    config (strtokNull t delim).1 = config t ∧
    readPtr (strtokNull t delim).1 (strtokNull t delim).2 = (nextToken delim rest).1 := by
  obtain ⟨p, hp, hb⟩ := h
  have := strtok_r_bufAt t._rxBuffer rest delim p hb
  have e : strtokNull t delim =
      ({ t with _rxBuffer := (strtok_r t._rxBuffer p delim).mem,
                _lastPos := some (strtok_r t._rxBuffer p delim).save },
        (strtok_r t._rxBuffer p delim).token) := by
    simp only [strtokNull, hp]
  rw [e]
  exact ⟨⟨_, rfl, this.1⟩, this.2.1, rfl, rfl, readPtr_of_ptrReads _ _ _ this.2.2⟩

theorem tokCall_spec (t : SerialTerminal) (rest : List Nat) (c : TokCall) (h : Tokenizing t rest) :
    Tokenizing (tokCall t c).1 (absCall (cstr t._delimiter) rest c).2 ∧
    (tokCall t c).1._rxBuffer.length = t._rxBuffer.length ∧
    (tokCall t c).1._rxBufferIndex = t._rxBufferIndex ∧
    config (tokCall t c).1 = config t ∧
    (tokCall t c).2 = (absCall (cstr t._delimiter) rest c).1 := by
  cases c
  · exact strtokNull_spec t rest _ h
  · exact strtokNull_spec t rest _ h

theorem config_delimiter {t t' : SerialTerminal} (h : config t' = config t) :
    t'._delimiter = t._delimiter := by
  have := congrArg SerialTerminal._delimiter h
  simpa [config] using this

theorem runCalls_spec (t : SerialTerminal) (rest : List Nat) (calls : List TokCall)
    (h : Tokenizing t rest) :
    Tokenizing (runCalls t calls).1 (absRun (cstr t._delimiter) rest calls).2 ∧
    (runCalls t calls).1._rxBuffer.length = t._rxBuffer.length ∧
    (runCalls t calls).1._rxBufferIndex = t._rxBufferIndex ∧
    config (runCalls t calls).1 = config t ∧
    (runCalls t calls).2 = (absRun (cstr t._delimiter) rest calls).1 := by
  induction calls generalizing t rest with
  | nil => exact ⟨h, rfl, rfl, rfl, rfl⟩
  | cons c cs ih =>
    have h1 := tokCall_spec t rest c h
    have h2 := ih (tokCall t c).1 _ h1.1
    rw [config_delimiter h1.2.2.2.1] at h2
    simp only [runCalls, absRun]
    refine ⟨h2.1, h2.2.1.trans h1.2.1, h2.2.2.1.trans h1.2.2.1, h2.2.2.2.1.trans h1.2.2.2.1, ?_⟩
    rw [h1.2.2.2.2, h2.2.2.2.2]

theorem strncmp_append_nul (tok post name : List Nat) (n : Nat) (h : ∀ c ∈ tok, c ≠ 0) :
    strncmp (tok ++ 0 :: post) name n = strncmp tok name n := by
  induction n generalizing tok name with
  | zero => simp [strncmp]
  | succ n ih =>
    cases tok with
    | nil => simp [strncmp]
    | cons c tok =>
      have hc : c ≠ 0 := h c (by simp)
      simp only [strncmp, List.cons_append, List.headD_cons, List.tail_cons]
      rw [ih tok name.tail (fun y hy => h y (by simp [hy]))]

theorem findCommand_append_nul (tok post : List Nat) (table : List SerialTerminalCallback)
    (h : ∀ c ∈ tok, c ≠ 0) :
    findCommand (tok ++ 0 :: post) table = findCommand tok table := by
  induction table with
  | nil => rfl
  | cons e es ih => simp only [findCommand, strncmp_append_nul _ _ _ _ h, ih]

theorem config_fields {t t' : SerialTerminal} (h : config t' = config t) :
    t'._commandList = t._commandList ∧ t'._numCommands = t._numCommands ∧
    t'._newlineChar = t._newlineChar ∧ t'._delimiter = t._delimiter ∧
    t'._defaultHandler = t._defaultHandler ∧ t'._postCommandHandler = t._postCommandHandler ∧
    t'.doCharEcho = t.doCharEcho := by
  have h1 := congrArg SerialTerminal._commandList h
  have h2 := congrArg SerialTerminal._numCommands h
  have h3 := congrArg SerialTerminal._newlineChar h
  have h4 := congrArg SerialTerminal._delimiter h
  have h5 := congrArg SerialTerminal._defaultHandler h
  have h6 := congrArg SerialTerminal._postCommandHandler h
  have h7 := congrArg SerialTerminal.doCharEcho h
  exact ⟨h1, h2, h3, h4, h5, h6, h7⟩

theorem dispatch_spec (t : SerialTerminal) (m : Bool) (i : Nat) (tok rest post : List Nat)
    (hdrop : t._rxBuffer.drop i = tok ++ 0 :: post) (hnz : ∀ c ∈ tok, c ≠ 0)
    (h : Tokenizing t rest) :
    ∃ rest', Tokenizing (dispatch t m i).term rest' ∧
      (dispatch t m i).term._rxBuffer.length = t._rxBuffer.length ∧
      (dispatch t m i).term._rxBufferIndex = t._rxBufferIndex ∧
      config (dispatch t m i).term = config t ∧
      (match findCommand tok (t._commandList.take t._numCommands) with
        | some e => (⟨true,
            [Event.command e.function (absRun (cstr t._delimiter) rest e.function.calls).1],
            (absRun (cstr t._delimiter) rest e.function.calls).2⟩ : LineResult)
        | none =>
          match m, t._defaultHandler with
          | false, some f => ⟨false,
              [Event.defaultHandler f tok (absRun (cstr t._delimiter) rest f.calls).1],
              (absRun (cstr t._delimiter) rest f.calls).2⟩
          | _, _ => ⟨m, [], rest⟩) = ⟨(dispatch t m i).matched, (dispatch t m i).events, rest'⟩ := by
  unfold dispatch
  rw [hdrop, findCommand_append_nul _ _ _ hnz, cstr_append_nul _ _ hnz]
  cases findCommand tok (t._commandList.take t._numCommands) with
  | some e =>
    have := runCalls_spec t rest e.function.calls h
    exact ⟨_, this.1, this.2.1, this.2.2.1, this.2.2.2.1, by simp only [this.2.2.2.2]⟩
  | none =>
    cases m with
    | true => exact ⟨rest, h, rfl, rfl, rfl, by simp⟩
    | false =>
      cases hdef : t._defaultHandler with
      | none => exact ⟨rest, h, rfl, rfl, rfl, by simp⟩
      | some f =>
        have := runCalls_spec t rest f.calls h
        exact ⟨_, this.1, this.2.1, this.2.2.1, this.2.2.2.1, by simp only [this.2.2.2.2]⟩

theorem runPost_spec (t : SerialTerminal) (rest : List Nat) (h : Tokenizing t rest) :
    (runPost t).1._rxBuffer.length = t._rxBuffer.length ∧
    (runPost t).1._rxBufferIndex = t._rxBufferIndex ∧
    config (runPost t).1 = config t ∧ (runPost t).2 = linePost t rest := by
  unfold runPost linePost
  cases t._postCommandHandler with
  | none => exact ⟨rfl, rfl, rfl, rfl⟩
  | some f =>
    have := runCalls_spec t rest f.calls h
    exact ⟨this.2.1, this.2.2.1, this.2.2.2.1, by simp only [this.2.2.2.2]⟩

theorem linePost_config {t t' : SerialTerminal} (h : config t' = config t) (rest : List Nat) :
    linePost t' rest = linePost t rest := by
  have := config_fields h
  simp only [linePost, this.2.2.2.1, this.2.2.2.2.2.1]

theorem strtokBuffer_spec (t : SerialTerminal) (cap : List Nat) (h : Captured t cap) :
    Tokenizing (strtokBuffer t).1 (nextToken (cstr t._delimiter) cap).2 ∧
    (strtokBuffer t).1._rxBuffer.length = ST_RX_BUFFER_SIZE + 1 ∧
    (strtokBuffer t).1._rxBufferIndex = t._rxBufferIndex ∧
    config (strtokBuffer t).1 = config t ∧
    PtrReads (strtokBuffer t).1._rxBuffer (strtokBuffer t).2 (nextToken (cstr t._delimiter) cap).1 := by
  obtain ⟨hlen, _, ⟨post, hbuf⟩, hnz⟩ := h
  have hb : BufAt t._rxBuffer 0 cap := ⟨[], post, by simpa using hbuf, rfl, hnz⟩
  have hs := strtok_r_bufAt t._rxBuffer cap (cstr t._delimiter) 0 hb
  exact ⟨⟨_, rfl, hs.1⟩, hs.2.1.trans hlen, rfl, rfl, hs.2.2⟩

/-- the dispatch on an optional token, on lists -/
theorem dispatchToken_spec (t : SerialTerminal) (m : Bool) (ptr : Option Nat)
    (tok : Option (List Nat)) (rest : List Nat)
    (hp : PtrReads t._rxBuffer ptr tok) (h : Tokenizing t rest) :
    ∃ rest', Tokenizing (dispatchToken t m ptr).term rest' ∧
      (dispatchToken t m ptr).term._rxBuffer.length = t._rxBuffer.length ∧
      (dispatchToken t m ptr).term._rxBufferIndex = t._rxBufferIndex ∧
      config (dispatchToken t m ptr).term = config t ∧
      (match tok with
        | none => (⟨m, [], rest⟩ : LineResult)
        | some tok =>
          match findCommand tok (t._commandList.take t._numCommands) with
          | some e => ⟨true,
              [Event.command e.function (absRun (cstr t._delimiter) rest e.function.calls).1],
              (absRun (cstr t._delimiter) rest e.function.calls).2⟩
          | none =>
            match m, t._defaultHandler with
            | false, some f => ⟨false,
                [Event.defaultHandler f tok (absRun (cstr t._delimiter) rest f.calls).1],
                (absRun (cstr t._delimiter) rest f.calls).2⟩
            | _, _ => ⟨m, [], rest⟩) =
        ⟨(dispatchToken t m ptr).matched, (dispatchToken t m ptr).events, rest'⟩ := by
  cases ptr with
  | none =>
    cases tok with
    | some tok => exact hp.elim
    | none => exact ⟨rest, h, rfl, rfl, rfl, rfl⟩
  | some i =>
    cases tok with
    | none => exact hp.elim
    | some tok =>
      obtain ⟨post', hdrop, _, htnz⟩ := hp
      exact dispatch_spec t m i tok rest post' hdrop htnz h

theorem lineDispatch_config {t t' : SerialTerminal} (h : config t' = config t) (m : Bool)
    (cap : List Nat) : lineDispatch t' m cap = lineDispatch t m cap := by
  have := config_fields h
  simp only [lineDispatch, this.1, this.2.1, this.2.2.2.1, this.2.2.2.2.1]

theorem processLine_spec (t : SerialTerminal) (m : Bool) (cap : List Nat) (h : Captured t cap) :
    (processLine t m).matched = (lineDispatch t m cap).matched ∧
    (processLine t m).events = lineEvents t m cap ∧
    (processLine t m).term._rxBuffer.length = ST_RX_BUFFER_SIZE + 1 ∧
    (processLine t m).term._rxBufferIndex = t._rxBufferIndex ∧
    config (processLine t m).term = config t := by
  obtain ⟨h1, h2, h3, h4, h5⟩ := strtokBuffer_spec t cap h
  obtain ⟨rest', d1, d2, d3, d4, d5⟩ := dispatchToken_spec _ m _ _ _ h5 h1
  have hp := runPost_spec _ _ d1
  have hf := config_fields h4
  rw [hf.1, hf.2.1, hf.2.2.2.1, hf.2.2.2.2.1] at d5
  have e : lineDispatch t m cap = ⟨(dispatchToken (strtokBuffer t).1 m (strtokBuffer t).2).matched,
      (dispatchToken (strtokBuffer t).1 m (strtokBuffer t).2).events, rest'⟩ := by
    rw [← d5]; unfold lineDispatch
    cases (nextToken (cstr t._delimiter) cap).1 <;> rfl
  refine ⟨?_, ?_, hp.1.trans (d2.trans h2), hp.2.1.trans (d3.trans h3),
    hp.2.2.1.trans (d4.trans h4)⟩
  · rw [e]; rfl
  · unfold lineEvents
    rw [e]
    simp only [processLine, hp.2.2, linePost_config (d4.trans h4)]

theorem isprint_ne_zero {c : Nat} (h : isprint c = true) : c ≠ 0 := by
  unfold isprint at h
  simp only [Bool.and_eq_true, decide_eq_true_eq] at h
  omega

theorem captured_length_le {t : SerialTerminal} {cap : List Nat} (h : Captured t cap) :
    cap.length ≤ ST_RX_BUFFER_SIZE := by
  obtain ⟨hlen, _, ⟨post, hbuf⟩, _⟩ := h
  rw [hbuf] at hlen
  simp only [List.length_append, List.length_cons] at hlen
  omega

theorem storeChar_captured (t : SerialTerminal) (cap : List Nat) (c : Nat)
    (h : Captured t cap) (hc : c ≠ 0) (hlt : cap.length < ST_RX_BUFFER_SIZE) :
    Captured (storeChar t c).1 (cap ++ [c]) ∧ config (storeChar t c).1 = config t := by
  obtain ⟨hlen, hidx, ⟨post, hbuf⟩, hnz⟩ := h
  have hpost : post ≠ [] := by
    rintro rfl
    rw [hbuf] at hlen
    simp only [List.length_append, List.length_cons, List.length_nil] at hlen
    omega
  obtain ⟨y, post', rfl⟩ := List.exists_cons_of_ne_nil hpost
  have hlt' : t._rxBufferIndex < ST_RX_BUFFER_SIZE := by rw [hidx]; exact hlt
  unfold storeChar
  rw [if_pos hlt']
  refine ⟨⟨?_, ?_, ⟨post', ?_⟩, ?_⟩, rfl⟩
  · simpa using hlen
  · simp [hidx]
  · show ((t._rxBuffer.set t._rxBufferIndex c).set (t._rxBufferIndex + 1) 0) = _
    rw [hbuf, hidx, set_at_append cap _ 0 c _ rfl]
    have : cap ++ c :: y :: post' = (cap ++ [c]) ++ y :: post' := by simp
    rw [this, set_at_append (cap ++ [c]) post' y 0 _ (by simp)]
  · intro x hx
    rcases List.mem_append.1 hx with h1 | h1
    · exact hnz x h1
    · simp at h1; rw [h1]; exact hc

theorem storeChar_full (t : SerialTerminal) (c : Nat)
    (hge : ¬ t._rxBufferIndex < ST_RX_BUFFER_SIZE) : (storeChar t c).1 = t := by
  unfold storeChar
  rw [if_neg hge]

theorem echoChars_cons_print (t t' : SerialTerminal) (c : Nat) (cs : List Nat)
    (hp : isprint c = true) (he : t'.doCharEcho = t.doCharEcho) :
    (storeChar t c).2 ++ echoChars t' cs = echoChars t (c :: cs) := by
  unfold echoChars storeChar
  rw [he]
  cases t.doCharEcho <;> simp [List.filter_cons_of_pos hp]

theorem readSerialLoop_append (t : SerialTerminal) (m : Bool) (xs ys : List Nat) :
    readSerialLoop t m (xs ++ ys) =
      ⟨(readSerialLoop (readSerialLoop t m xs).term (readSerialLoop t m xs).matched ys).term,
       (readSerialLoop (readSerialLoop t m xs).term (readSerialLoop t m xs).matched ys).matched,
       (readSerialLoop t m xs).events ++
         (readSerialLoop (readSerialLoop t m xs).term (readSerialLoop t m xs).matched ys).events⟩ := by
  induction xs generalizing t m with
  | nil => simp [readSerialLoop]
  | cons c cs ih =>
    rw [List.cons_append]
    simp only [readSerialLoop, ih, List.append_assoc]

theorem readSerialLoop_chars (t : SerialTerminal) (m : Bool) (line cap : List Nat)
    (h : Captured t cap) (hnl : t._newlineChar ∉ line) :
    Captured (readSerialLoop t m line).term (cap ++ captureFrom cap.length line) ∧
    (readSerialLoop t m line).matched = m ∧
    (readSerialLoop t m line).events = echoChars t line ∧
    config (readSerialLoop t m line).term = config t := by
  induction line generalizing t cap with
  | nil => simpa [readSerialLoop, captureFrom, echoChars] using h
  | cons c cs ih =>
    have hc : c ≠ t._newlineChar := fun e => hnl (by simp [e])
    have hcs : t._newlineChar ∉ cs := fun e => hnl (by simp [e])
    by_cases hp : isprint c = true
    · have hstep : readSerialStep t m c = ⟨(storeChar t c).1, m, (storeChar t c).2⟩ := by
        unfold readSerialStep; rw [if_neg hc, if_pos hp]
      by_cases hlt : cap.length < ST_RX_BUFFER_SIZE
      · obtain ⟨hcap', hcfg'⟩ := storeChar_captured t cap c h (isprint_ne_zero hp) hlt
        have hf := config_fields hcfg'
        have := ih (storeChar t c).1 (cap ++ [c]) hcap' (by rw [hf.2.2.1]; exact hcs)
        simp only [readSerialLoop, hstep]
        refine ⟨?_, this.2.1, ?_, this.2.2.2.trans hcfg'⟩
        · have e : cap ++ captureFrom cap.length (c :: cs)
              = (cap ++ [c]) ++ captureFrom (cap ++ [c]).length cs := by
            unfold captureFrom
            have e1 : ST_RX_BUFFER_SIZE - cap.length
                = (ST_RX_BUFFER_SIZE - (cap ++ [c]).length) + 1 := by
              simp only [List.length_append, List.length_singleton]; omega
            rw [e1, List.filter_cons_of_pos hp, List.take_succ_cons]
            simp
          rw [e]; exact this.1
        · rw [this.2.2.1, echoChars_cons_print t _ c cs hp hf.2.2.2.2.2.2]
      · have hidx : ¬ t._rxBufferIndex < ST_RX_BUFFER_SIZE := by rw [h.2.1]; exact hlt
        have hsame := storeChar_full t c hidx
        have := ih t cap h hcs
        simp only [readSerialLoop, hstep, hsame]
        refine ⟨?_, this.2.1, ?_, this.2.2.2⟩
        · have e : captureFrom cap.length (c :: cs) = captureFrom cap.length cs := by
            unfold captureFrom
            have : ST_RX_BUFFER_SIZE - cap.length = 0 := by omega
            rw [this]; simp
          rw [e]; exact this.1
        · rw [this.2.2.1, echoChars_cons_print t _ c cs hp rfl]
    · have hstep : readSerialStep t m c = ⟨t, m, []⟩ := by
        unfold readSerialStep; rw [if_neg hc, if_neg hp]
      have := ih t cap h hcs
      simp only [readSerialLoop, hstep, List.nil_append]
      have e : captureFrom cap.length (c :: cs) = captureFrom cap.length cs := by
        unfold captureFrom; rw [List.filter_cons_of_neg hp]
      have e2 : echoChars t (c :: cs) = echoChars t cs := by
        unfold echoChars; rw [List.filter_cons_of_neg hp]
      rw [e, e2]; exact this

theorem clearBuffer_captured (t : SerialTerminal) (h : t._rxBuffer.length = ST_RX_BUFFER_SIZE + 1) :
    Captured (clearBuffer t) [] ∧ config (clearBuffer t) = config t := by
  refine ⟨⟨by simpa [clearBuffer] using h, rfl, ?_, by simp⟩, rfl⟩
  cases hb : t._rxBuffer with
  | nil => rw [hb] at h; simp at h
  | cons y post => exact ⟨post, by simp [clearBuffer, hb]⟩

theorem lineEvents_config {t t' : SerialTerminal} (h : config t' = config t) (m : Bool)
    (cap : List Nat) : lineEvents t' m cap = lineEvents t m cap := by
  have := config_fields h
  unfold lineEvents
  rw [lineDispatch_config h, linePost_config h]
  simp only [echoNewline, this.2.2.2.2.2.2]

/-- one whole line, read into an empty buffer -/
theorem readSerialLoop_line (t : SerialTerminal) (m : Bool) (line : List Nat)
    (h : Captured t []) (hnl : t._newlineChar ∉ line) :
    (readSerialLoop t m (line ++ [t._newlineChar])).matched
      = (lineDispatch t m (captureFrom 0 line)).matched ∧
    (readSerialLoop t m (line ++ [t._newlineChar])).events
      = echoChars t line ++ lineEvents t m (captureFrom 0 line) ∧
    Captured (readSerialLoop t m (line ++ [t._newlineChar])).term [] ∧
    config (readSerialLoop t m (line ++ [t._newlineChar])).term = config t := by
  obtain ⟨c1, c2, c3, c4⟩ := readSerialLoop_chars t m line [] h hnl
  simp only [List.nil_append, List.length_nil] at c1
  have hf := config_fields c4
  obtain ⟨p1, p2, p3, p4, p5⟩ := processLine_spec _ m _ c1
  have hstep : readSerialStep (readSerialLoop t m line).term m t._newlineChar =
      ⟨clearBuffer (processLine (readSerialLoop t m line).term m).term,
        (processLine (readSerialLoop t m line).term m).matched,
        (processLine (readSerialLoop t m line).term m).events⟩ := by
    unfold readSerialStep; rw [if_pos hf.2.2.1.symm]
  have hcl := clearBuffer_captured _ p3
  rw [readSerialLoop_append]
  simp only [readSerialLoop, c2, hstep, List.append_nil]
  refine ⟨?_, ?_, hcl.1, hcl.2.trans (p5.trans c4)⟩
  · rw [p1, lineDispatch_config c4]
  · rw [c3, p2, lineEvents_config c4]

theorem tokensOf_nil (delim : List Nat) : tokensOf delim [] = [] := by
  simp [tokensOf]

theorem tokensOf_delims (delim ds l : List Nat) (h : ∀ c ∈ ds, c ∈ delim) :
    tokensOf delim (ds ++ l) = tokensOf delim l := by
  induction ds with
  | nil => rfl
  | cons d ds ih =>
    have hd : d ∈ delim := h d (by simp)
    have := ih (fun c hc => h c (by simp [hc]))
    unfold tokensOf at this ⊢
    have hp : (fun c => delim.contains c) d = true := by simpa using hd
    rw [List.cons_append, List.splitOnP_cons, if_pos hp, List.filter_cons_of_neg (by simp)]
    exact this

theorem tokensOf_single (delim tok : List Nat) (h : ∀ c ∈ tok, c ∉ delim) (hne : tok ≠ []) :
    tokensOf delim tok = [tok] := by
  unfold tokensOf
  rw [List.splitOnP_eq_single _ _ (fun x hx => by simpa using h x hx)]
  cases tok with
  | nil => exact (hne rfl).elim
  | cons c tok => simp

theorem tokensOf_first (delim tok l : List Nat) (d : Nat) (h : ∀ c ∈ tok, c ∉ delim)
    (hne : tok ≠ []) (hd : d ∈ delim) :
    tokensOf delim (tok ++ d :: l) = tok :: tokensOf delim l := by
  unfold tokensOf
  rw [List.splitOnP_first _ _ (fun x hx => by simpa using h x hx) d (by simpa using hd)]
  cases tok with
  | nil => exact (hne rfl).elim
  | cons c tok => simp

theorem nextToken_snd (delim rest : List Nat) : (nextToken delim rest).2 = dropToken delim rest := by
  unfold nextToken dropToken
  split
  · next h => rw [h]; rfl
  · rfl

theorem tokensOf_unfold (delim rest : List Nat) :
    tokensOf delim rest =
      match (nextToken delim rest).1 with
      | none => []
      | some tok => tok :: tokensOf delim (nextToken delim rest).2 := by
  have hsplit := List.takeWhile_append_dropWhile (fun c => delim.contains c) rest
  have hds : ∀ c ∈ rest.takeWhile (fun c => delim.contains c), c ∈ delim := by
    intro c hc
    simpa using (mem_takeWhile_imp _ _ c hc).1
  generalize rest.takeWhile (fun c => delim.contains c) = ds at hsplit hds
  unfold nextToken
  cases hr1 : rest.dropWhile (fun c => delim.contains c) with
  | nil =>
    rw [hr1] at hsplit
    rw [← hsplit, tokensOf_delims _ _ _ hds]
    simp [tokensOf_nil]
  | cons c r1 =>
    have hcd : c ∉ delim := by simpa using dropWhile_head _ _ _ _ hr1
    rw [hr1] at hsplit
    have hsplit2 := List.takeWhile_append_dropWhile (fun c => !delim.contains c) (c :: r1)
    have htok : ∀ y ∈ (c :: r1).takeWhile (fun c => !delim.contains c), y ∉ delim := by
      intro y hy
      simpa using (mem_takeWhile_imp _ _ y hy).1
    have hne : (c :: r1).takeWhile (fun c => !delim.contains c) ≠ [] := by
      rw [List.takeWhile_cons_of_pos (by simpa using hcd)]; simp
    rw [if_neg (by simp)]
    generalize (c :: r1).takeWhile (fun c => !delim.contains c) = tok at hsplit2 htok hne
    cases hr2 : (c :: r1).dropWhile (fun c => !delim.contains c) with
    | nil =>
      rw [hr2] at hsplit2
      simp only [List.append_nil] at hsplit2
      rw [← hsplit, ← hsplit2, tokensOf_delims _ _ _ hds, tokensOf_single _ _ htok hne]
      simp [tokensOf_nil]
    | cons d r3 =>
      have hd : d ∈ delim := by simpa using dropWhile_head _ _ _ _ hr2
      rw [hr2] at hsplit2
      rw [← hsplit, ← hsplit2, tokensOf_delims _ _ _ hds, tokensOf_first _ _ _ _ htok hne hd]
      simp

theorem nextToken_nil (delim : List Nat) : nextToken delim [] = (none, []) := by
  simp [nextToken]

theorem absRun_getNext (delim rest : List Nat) (k : Nat) :
    (absRun delim rest (List.replicate k TokCall.getNext)).1
        = (List.range k).map (fun i => (tokensOf delim rest)[i]?) ∧
    (absRun delim rest (List.replicate k TokCall.getNext)).2 = (dropToken delim)^[k] rest := by
  induction k generalizing rest with
  | zero => simp [absRun]
  | succ k ih =>
    have h := ih (nextToken delim rest).2
    have hu := tokensOf_unfold delim rest
    simp only [List.replicate_succ, absRun, absCall, Function.iterate_succ, Function.comp_apply,
      List.range_succ_eq_map, List.map_cons, List.map_map]
    rw [h.1, h.2, nextToken_snd]
    refine ⟨?_, rfl⟩
    cases hn : (nextToken delim rest).1 with
    | none =>
      rw [hn] at hu
      have h2 : dropToken delim rest = [] := by
        rw [← nextToken_snd]; unfold nextToken at hn ⊢
        split at hn
        · next hh => rw [if_pos hh]
        · simp at hn
      simp [hu, h2, tokensOf_nil, Function.comp_def]
    | some tok =>
      rw [hn, nextToken_snd] at hu
      simp [hu]

/-! ## Part 2: lemmas shared by the claims -/

theorem captured_of_rxEmpty {t : SerialTerminal} (h : RxEmpty t) : Captured t [] := by
  obtain ⟨h1, h2, h3⟩ := h
  refine ⟨h1, h2, ?_, by simp⟩
  cases hb : t._rxBuffer with
  | nil => rw [hb] at h3; simp at h3
  | cons y post =>
    rw [hb] at h3
    simp only [List.head?_cons, Option.some.injEq] at h3
    exact ⟨post, by rw [h3]; rfl⟩

theorem handlerEvents_append (a b : List Event) :
    handlerEvents (a ++ b) = handlerEvents a ++ handlerEvents b := by
  simp [handlerEvents]

theorem handlerEvents_echoChars (t : SerialTerminal) (line : List Nat) :
    handlerEvents (echoChars t line) = [] := by
  unfold handlerEvents echoChars
  split
  · rw [List.filter_eq_nil_iff]
    intro e he
    obtain ⟨c, _, rfl⟩ := List.mem_map.1 he
    simp [Event.isCommand, Event.isDefault]
  · rfl

theorem handlerEvents_echoNewline (t : SerialTerminal) : handlerEvents (echoNewline t) = [] := by
  unfold handlerEvents echoNewline
  split <;> simp [Event.isCommand, Event.isDefault]

theorem handlerEvents_linePost (t : SerialTerminal) (rest : List Nat) :
    handlerEvents (linePost t rest) = [] := by
  unfold handlerEvents linePost
  cases t._postCommandHandler <;> simp [Event.isCommand, Event.isDefault]

theorem handlerEvents_lineDispatch (t : SerialTerminal) (m : Bool) (cap : List Nat) :
    handlerEvents (lineDispatch t m cap).events = (lineDispatch t m cap).events := by
  unfold handlerEvents lineDispatch
  split
  · rfl
  · split
    · simp [Event.isCommand]
    · split
      · simp [Event.isDefault]
      · rfl

/-- the callbacks invoked for one whole line, read into an empty buffer -/
theorem handlerEvents_line (t : SerialTerminal) (m : Bool) (line : List Nat)
    (h : RxEmpty t) (hnl : t._newlineChar ∉ line) :
    handlerEvents (readSerialLoop t m (line ++ [t._newlineChar])).events =
      (lineDispatch t m (captureFrom 0 line)).events := by
  rw [(readSerialLoop_line t m line (captured_of_rxEmpty h) hnl).2.1]
  unfold lineEvents
  simp only [handlerEvents_append, handlerEvents_echoChars, handlerEvents_echoNewline,
    handlerEvents_linePost, handlerEvents_lineDispatch, List.nil_append, List.append_nil]

theorem nextToken_of_tokens (delim cap tok : List Nat) (args : List (List Nat))
    (h : tokensOf delim cap = tok :: args) :
    (nextToken delim cap).1 = some tok ∧ tokensOf delim (dropToken delim cap) = args := by
  have hu := tokensOf_unfold delim cap
  rw [h] at hu
  cases hn : (nextToken delim cap).1 with
  | none => rw [hn] at hu; simp at hu
  | some tok' =>
    rw [hn, nextToken_snd] at hu
    simp only [List.cons.injEq] at hu
    exact ⟨by rw [hu.1], hu.2.symm⟩

theorem nextToken_mem (delim cap tok : List Nat) (h : (nextToken delim cap).1 = some tok) :
    ∀ c ∈ tok, c ∈ cap := by
  unfold nextToken at h
  split at h
  · simp at h
  · simp only [Option.some.injEq] at h
    intro c hc
    rw [← h] at hc
    exact mem_dropWhile_imp _ _ c (mem_takeWhile_imp _ _ c hc).2

theorem captureFrom_printable (n : Nat) (line : List Nat) :
    ∀ c ∈ captureFrom n line, isprint c = true := by
  intro c hc
  unfold captureFrom at hc
  have := List.mem_of_mem_take hc
  exact (List.mem_filter.1 this).2

/-- the dispatch of a line whose first token is found in the table -/
theorem lineDispatch_found (t : SerialTerminal) (m : Bool) (cap tok : List Nat)
    (args : List (List Nat)) (e : SerialTerminalCallback)
    (htok : tokensOf (cstr t._delimiter) cap = tok :: args)
    (hfind : findCommand tok (commandTable t) = some e) :
    (lineDispatch t m cap).events =
      [Event.command e.function
        (absRun (cstr t._delimiter) (dropToken (cstr t._delimiter) cap) e.function.calls).1] := by
  have hn := (nextToken_of_tokens _ _ _ _ htok).1
  unfold commandTable at hfind
  unfold lineDispatch
  rw [hn]
  simp only [hfind, nextToken_snd]

theorem findCommand_first (tok : List Nat) (pre post : List SerialTerminalCallback)
    (e : SerialTerminalCallback)
    (hpre : ∀ x ∈ pre, strncmp tok x.command ST_NUM_COMMAND_CHARS ≠ 0)
    (he : strncmp tok e.command ST_NUM_COMMAND_CHARS = 0) :
    findCommand tok (pre ++ e :: post) = some e := by
  induction pre with
  | nil => simp [findCommand, he]
  | cons x pre ih =>
    rw [List.cons_append, findCommand, if_neg (hpre x (by simp))]
    exact ih (fun y hy => hpre y (by simp [hy]))

theorem absRun_append (delim rest : List Nat) (a b : List TokCall) :
    (absRun delim rest (a ++ b)).1 =
      (absRun delim rest a).1 ++ (absRun delim (absRun delim rest a).2 b).1 ∧
    (absRun delim rest (a ++ b)).2 = (absRun delim (absRun delim rest a).2 b).2 := by
  induction a generalizing rest with
  | nil => simp [absRun]
  | cons c cs ih =>
    rw [List.cons_append]
    simp only [absRun]
    rw [(ih _).1, (ih _).2]
    exact ⟨rfl, rfl⟩

theorem nextToken_no_delim (rest : List Nat) : nextToken [] rest = (restOrNone rest, []) := by
  have hd : ∀ l : List Nat, l.dropWhile (fun _ => true) = [] := by
    intro l; induction l <;> simp [List.dropWhile_cons, *]
  unfold nextToken restOrNone
  cases rest with
  | nil => simp
  | cons c cs => simp [hd]

theorem cstr_ne_zero (mem : List Nat) : ∀ c ∈ cstr mem, c ≠ 0 := by
  intro c hc
  have := (mem_takeWhile_imp _ _ c hc).1
  simpa using this

/-- The comparison by `strncmp` against a name padded with NUL as `strncpy` pads it. -/
theorem strncmp_padded (a b : List Nat) (k : Nat) (ha : ∀ c ∈ a, c ≠ 0) (hb : ∀ c ∈ b, c ≠ 0) :
    strncmp a (b.take k ++ List.replicate (k - (b.take k).length) 0) k = 0 ↔
      a.take k = b.take k := by
  induction k generalizing a b with
  | zero => simp [strncmp]
  | succ k ih =>
    cases a with
    | nil =>
      cases b with
      | nil => simp [strncmp, List.replicate_succ]
      | cons y b =>
        have hy : y ≠ 0 := hb y (by simp)
        simp only [strncmp, List.take_succ_cons, List.cons_append, List.headD_cons,
          List.headD_nil, List.take_nil]
        rw [if_pos (Ne.symm hy)]
        simp only [reduceCtorEq, iff_false]
        omega
    | cons x a =>
      have hx : x ≠ 0 := ha x (by simp)
      cases b with
      | nil =>
        simp only [strncmp, List.take_nil, List.nil_append, List.length_nil, Nat.sub_zero,
          List.replicate_succ, List.headD_cons, List.take_succ_cons]
        rw [if_pos hx]
        simp only [reduceCtorEq, iff_false]
        omega
      | cons y b =>
        have hy : y ≠ 0 := hb y (by simp)
        simp only [strncmp, List.take_succ_cons, List.cons_append, List.headD_cons,
          List.tail_cons, List.length_cons, Nat.add_sub_add_right]
        by_cases hxy : x = y
        · subst hxy
          rw [if_neg (by simp), if_neg hx,
            ih a b (fun c hc => ha c (by simp [hc])) (fun c hc => hb c (by simp [hc]))]
          simp
        · rw [if_pos hxy]
          constructor
          · intro h; exfalso; omega
          · intro h; injection h with h1 _; exact (hxy h1).elim

/-- the comparison of `readSerial` against the entry `addCommand` writes -/
theorem strncmp_entryOf (tok post name : List Nat) (f : Callback) (h : ∀ c ∈ tok, c ≠ 0) :
    strncmp (tok ++ 0 :: post) (entryOf name f).command ST_NUM_COMMAND_CHARS = 0 ↔
      tok.take ST_NUM_COMMAND_CHARS = (cstr name).take ST_NUM_COMMAND_CHARS := by
  rw [strncmp_append_nul _ _ _ _ h]
  exact strncmp_padded tok (cstr name) _ h (cstr_ne_zero name)

theorem getD_add_drop (l : List Nat) (i k : Nat) : l.getD (i + k) 0 = (l.drop i).getD k 0 := by
  simp [List.getD_eq_getElem?_getD, List.getElem?_drop]

theorem getD_takeWhile_length (q : Nat → Bool) (l : List Nat) :
    l.getD (l.takeWhile q).length 0 = 0 ∨ q (l.getD (l.takeWhile q).length 0) = false := by
  induction l with
  | nil => simp
  | cons a l ih =>
    by_cases hq : q a = true
    · rw [List.takeWhile_cons_of_pos hq]; simpa using ih
    · rw [List.takeWhile_cons_of_neg hq]; right; simpa using hq

theorem strcspn_nil_stops (mem : List Nat) (s : Nat) :
    mem.getD (s + strcspn (mem.drop s) []) 0 = 0 := by
  rw [getD_add_drop]
  unfold strcspn
  rcases getD_takeWhile_length _ (mem.drop s) with h | h
  · exact h
  · simpa using h

/-- a `strtok_r` call that returns `NULL` leaves the saved position at a NUL -/
theorem strtok_r_none_exhausted (mem delim : List Nat) (s : Nat)
    (h : (strtok_r mem s delim).token = none) :
    (strtok_r mem s delim).mem.getD (strtok_r mem s delim).save 0 = 0 := by
  unfold strtok_r at h ⊢
  by_cases h0 : mem.getD s 0 = 0
  · simp only [if_pos h0]; exact h0
  · simp only [if_neg h0] at h ⊢
    by_cases h1 : mem.getD (s + strspn (mem.drop s) delim) 0 = 0
    · simp only [if_pos h1]; exact h1
    · simp only [if_neg h1] at h
      split at h <;> simp at h

/-- a `strtok_r` call with the empty delimiter set leaves the saved position at a NUL -/
theorem strtok_r_nil_exhausted (mem : List Nat) (s : Nat) :
    (strtok_r mem s []).mem.getD (strtok_r mem s []).save 0 = 0 := by
  unfold strtok_r
  by_cases h0 : mem.getD s 0 = 0
  · simp only [if_pos h0]; exact h0
  · simp only [if_neg h0]
    by_cases h1 : mem.getD (s + strspn (mem.drop s) []) 0 = 0
    · simp only [if_pos h1]; exact h1
    · simp only [if_neg h1]
      rw [if_pos (strcspn_nil_stops mem _)]
      exact strcspn_nil_stops mem _

theorem strtokNull_exhausted (t : SerialTerminal) (delim : List Nat) (h : Exhausted t) :
    strtokNull t delim = (t, none) := by
  unfold Exhausted at h
  unfold strtokNull
  cases hp : t._lastPos with
  | none => rfl
  | some p =>
    rw [hp] at h
    simp only at h ⊢
    have : strtok_r t._rxBuffer p delim = ⟨t._rxBuffer, p, none⟩ := by
      unfold strtok_r; rw [if_pos h]
    rw [this]
    cases t
    simp only at hp
    simp [hp]

theorem tokCall_exhausted (t : SerialTerminal) (c : TokCall) (h : Exhausted t) :
    tokCall t c = (t, none) := by
  cases c <;> simp [tokCall, getNext, getRemaining, strtokNull_exhausted t _ h, readPtr]

theorem runCalls_exhausted (t : SerialTerminal) (calls : List TokCall) (h : Exhausted t) :
    (runCalls t calls).1 = t ∧ ∀ r ∈ (runCalls t calls).2, r = none := by
  induction calls with
  | nil => simp [runCalls]
  | cons c cs ih =>
    simp only [runCalls, tokCall_exhausted t c h]
    refine ⟨ih.1, ?_⟩
    intro r hr
    rcases List.mem_cons.1 hr with rfl | h1
    · rfl
    · exact ih.2 r h1

theorem strtokNull_none_exhausted (t : SerialTerminal) (delim : List Nat)
    (h : (strtokNull t delim).2 = none) : Exhausted (strtokNull t delim).1 := by
  unfold strtokNull at h ⊢
  cases hp : t._lastPos with
  | none => simp [Exhausted, hp]
  | some p =>
    rw [hp] at h
    simp only at h ⊢
    exact strtok_r_none_exhausted _ _ _ h

theorem getRemaining_exhausted (t : SerialTerminal) : Exhausted (getRemaining t).1 := by
  unfold getRemaining strtokNull
  cases hp : t._lastPos with
  | none => simp [Exhausted, hp]
  | some p => exact strtok_r_nil_exhausted _ _

/-- what no tokenizer call changes: all members but the buffer and the tokenizer position -/
theorem strtokNull_frame (t : SerialTerminal) (delim : List Nat) :
    config (strtokNull t delim).1 = config t ∧
    (strtokNull t delim).1._rxBufferIndex = t._rxBufferIndex := by
  unfold strtokNull
  cases t._lastPos <;> exact ⟨rfl, rfl⟩

theorem tokCall_frame (t : SerialTerminal) (c : TokCall) :
    config (tokCall t c).1 = config t ∧ (tokCall t c).1._rxBufferIndex = t._rxBufferIndex := by
  cases c
  · exact strtokNull_frame t _
  · exact strtokNull_frame t _

theorem runCalls_frame (t : SerialTerminal) (calls : List TokCall) :
    config (runCalls t calls).1 = config t ∧
    (runCalls t calls).1._rxBufferIndex = t._rxBufferIndex := by
  induction calls generalizing t with
  | nil => exact ⟨rfl, rfl⟩
  | cons c cs ih =>
    have h1 := tokCall_frame t c
    have h2 := ih (tokCall t c).1
    exact ⟨h2.1.trans h1.1, h2.2.trans h1.2⟩

theorem dispatch_frame (t : SerialTerminal) (m : Bool) (i : Nat) :
    config (dispatch t m i).term = config t ∧
    (dispatch t m i).term._rxBufferIndex = t._rxBufferIndex ∧
    (dispatch t m i).events.length ≤ 1 ∧
    ∀ e ∈ (dispatch t m i).events, e.isPost = false ∧ (e.isCommand || e.isDefault) = true := by
  unfold dispatch
  cases findCommand (t._rxBuffer.drop i) (t._commandList.take t._numCommands) with
  | some e =>
    have := runCalls_frame t e.function.calls
    exact ⟨this.1, this.2, by simp, by simp [Event.isPost, Event.isCommand]⟩
  | none =>
    cases m with
    | true => exact ⟨rfl, rfl, by simp, by simp⟩
    | false =>
      cases t._defaultHandler with
      | none => exact ⟨rfl, rfl, by simp, by simp⟩
      | some f =>
        have := runCalls_frame t f.calls
        exact ⟨this.1, this.2, by simp, by simp [Event.isPost, Event.isDefault]⟩

theorem dispatchToken_frame (t : SerialTerminal) (m : Bool) (ptr : Option Nat) :
    config (dispatchToken t m ptr).term = config t ∧
    (dispatchToken t m ptr).term._rxBufferIndex = t._rxBufferIndex ∧
    (dispatchToken t m ptr).events.length ≤ 1 ∧
    ∀ e ∈ (dispatchToken t m ptr).events,
      e.isPost = false ∧ (e.isCommand || e.isDefault) = true := by
  cases ptr with
  | none => exact ⟨rfl, rfl, by simp [dispatchToken], by simp [dispatchToken]⟩
  | some i => exact dispatch_frame t m i

theorem runPost_frame (t : SerialTerminal) :
    config (runPost t).1 = config t ∧ (runPost t).1._rxBufferIndex = t._rxBufferIndex := by
  unfold runPost
  cases t._postCommandHandler with
  | none => exact ⟨rfl, rfl⟩
  | some f => exact runCalls_frame t f.calls

theorem runPost_some (t : SerialTerminal) (p : Callback) (h : t._postCommandHandler = some p) :
    (runPost t).2 = [Event.postCommand p (runCalls t p.calls).2] := by
  unfold runPost; rw [h]

/-- the state in which the post command callback of a line is invoked -/
theorem dispatched_frame (t : SerialTerminal) (m : Bool) :
    config (dispatchToken (strtokBuffer t).1 m (strtokBuffer t).2).term = config t ∧
    (dispatchToken (strtokBuffer t).1 m (strtokBuffer t).2).term._rxBufferIndex
      = t._rxBufferIndex :=
  ⟨(dispatchToken_frame _ m _).1.trans rfl, (dispatchToken_frame _ m _).2.1.trans rfl⟩

theorem processLine_frame (t : SerialTerminal) (m : Bool) :
    config (processLine t m).term = config t :=
  (runPost_frame _).1.trans (dispatched_frame t m).1

theorem readSerialStep_frame (t : SerialTerminal) (m : Bool) (c : Nat) :
    config (readSerialStep t m c).term = config t := by
  unfold readSerialStep
  split
  · exact (processLine_frame t m)
  · split
    · unfold storeChar; split <;> rfl
    · rfl

theorem countP_isPost_processLine (t : SerialTerminal) (m : Bool) (p : Callback)
    (h : t._postCommandHandler = some p) :
    (processLine t m).events.countP Event.isPost = 1 := by
  have hd := dispatchToken_frame (strtokBuffer t).1 m (strtokBuffer t).2
  have hp : (dispatchToken (strtokBuffer t).1 m (strtokBuffer t).2).term._postCommandHandler
      = some p := by
    rw [(config_fields (dispatched_frame t m).1).2.2.2.2.2.1]; exact h
  have h0 : (dispatchToken (strtokBuffer t).1 m (strtokBuffer t).2).events.countP Event.isPost
      = 0 := by
    rw [List.countP_eq_zero]
    intro e he; simp [(hd.2.2.2 e he).1]
  have he : (echoNewline t).countP Event.isPost = 0 := by
    unfold echoNewline; split <;> simp [Event.isPost]
  simp only [processLine, List.countP_append, runPost_some _ p hp, h0, he]
  simp [Event.isPost]

theorem countP_isPost_loop (input : List Nat) (t : SerialTerminal) (m : Bool) (p : Callback)
    (h : t._postCommandHandler = some p) :
    (readSerialLoop t m input).events.countP Event.isPost = input.count t._newlineChar := by
  induction input generalizing t m with
  | nil => simp [readSerialLoop]
  | cons c cs ih =>
    have hf := config_fields (readSerialStep_frame t m c)
    have := ih (readSerialStep t m c).term (readSerialStep t m c).matched
      (by rw [hf.2.2.2.2.2.1]; exact h)
    simp only [readSerialLoop, List.countP_append, this, hf.2.2.1]
    by_cases hc : c = t._newlineChar
    · subst hc
      have : (readSerialStep t m t._newlineChar).events.countP Event.isPost = 1 := by
        unfold readSerialStep; rw [if_pos rfl]
        exact countP_isPost_processLine t m p h
      rw [this, List.count_cons_self]; omega
    · have : (readSerialStep t m c).events.countP Event.isPost = 0 := by
        unfold readSerialStep; rw [if_neg hc]
        split
        · unfold storeChar; split <;> simp [Event.isPost]
        · simp
      rw [this, List.count_cons_of_ne (Ne.symm hc)]; omega

theorem addCommands_append (t : SerialTerminal) (r1 r2 : List (List Nat × Callback)) :
    addCommands t (r1 ++ r2) = addCommands (addCommands t r1) r2 := by
  simp [addCommands, List.foldl_append]

/-- below the capacity of the `byte` counter, registrations append to the table -/
theorem addCommands_spec (regs : List (List Nat × Callback)) (t : SerialTerminal)
    (hlen : t._commandList.length = t._numCommands)
    (h : t._numCommands + regs.length ≤ 255) :
    addCommands t regs =
      { t with
        _commandList := t._commandList ++ regs.map (fun r => entryOf r.1 r.2)
        _numCommands := t._numCommands + regs.length } := by
  induction regs generalizing t with
  | nil => simp [addCommands]
  | cons r rs ih =>
    simp only [List.length_cons] at h
    have hmod : (t._numCommands + 1) % 256 = t._numCommands + 1 := Nat.mod_eq_of_lt (by omega)
    have h1 : addCommand t r.1 r.2 =
        { t with _commandList := t._commandList ++ [entryOf r.1 r.2]
                 _numCommands := t._numCommands + 1 } := by
      unfold addCommand entryOf
      rw [hmod, ← hlen, List.take_length]
    have := ih (addCommand t r.1 r.2) (by rw [h1]; simp [hlen]) (by rw [h1]; simp only; omega)
    show addCommands (addCommand t r.1 r.2) rs = _
    rw [this, h1]
    simp [Nat.add_assoc, Nat.add_comm 1]

theorem new_table (nl d : Nat) (uninit : SerialTerminal) :
    (new nl d uninit)._commandList = [] ∧ (new nl d uninit)._numCommands = 0 := ⟨rfl, rfl⟩

theorem addCommands_new (nl d : Nat) (uninit : SerialTerminal)
    (regs : List (List Nat × Callback)) (h : regs.length ≤ 255) :
    addCommands (new nl d uninit) regs =
      { new nl d uninit with
        _commandList := regs.map (fun r => entryOf r.1 r.2)
        _numCommands := regs.length } := by
  have := addCommands_spec regs (new nl d uninit) rfl (by rw [(new_table nl d uninit).2]; omega)
  rw [this, (new_table nl d uninit).1, (new_table nl d uninit).2]
  simp

/-- with an empty table and no default, no post command callback and no echo, a line
produces no event -/
theorem readSerial_silent (t : SerialTerminal) (line : List Nat) (h : RxEmpty t)
    (hn : t._numCommands = 0) (hd : t._defaultHandler = none)
    (hp : t._postCommandHandler = none) (he : t.doCharEcho = false)
    (hnl : t._newlineChar ∉ line) :
    (readSerial t (line ++ [t._newlineChar])).2 = [] := by
  have := (readSerialLoop_line t false line (captured_of_rxEmpty h) hnl).2.1
  unfold readSerial
  rw [this]
  unfold echoChars lineEvents echoNewline linePost lineDispatch
  rw [he, hp, hn, hd]
  cases (nextToken (cstr t._delimiter) (captureFrom 0 line)).1 <;> simp [findCommand]

/-- After 256 registrations the `byte` counter `_numCommands` is 0 again: the lookup examines
no entry, and a line with the registered name produces no event. -/
theorem registrations_256_wrap :
    (addCommands sampleTerminal (List.replicate 256 (nameLED, cbPlain)))._numCommands = 0 ∧
    commandTable (addCommands sampleTerminal (List.replicate 256 (nameLED, cbPlain))) = [] ∧
    (readSerial (addCommands sampleTerminal (List.replicate 256 (nameLED, cbPlain)))
      (nameLED ++ [10])).2 = [] := by
  have e : List.replicate 256 (nameLED, cbPlain)
      = List.replicate 255 (nameLED, cbPlain) ++ [(nameLED, cbPlain)] := by
    rw [← List.replicate_succ']
  have h := addCommands_new 10 32 sampleUninit (List.replicate 255 (nameLED, cbPlain))
    (by rw [List.length_replicate])
  have e2 : addCommands sampleTerminal (List.replicate 256 (nameLED, cbPlain)) =
      addCommand { new 10 32 sampleUninit with
        _commandList := (List.replicate 255 (nameLED, cbPlain)).map (fun r => entryOf r.1 r.2)
        _numCommands := (List.replicate 255 (nameLED, cbPlain)).length } nameLED cbPlain := by
    rw [e, addCommands_append]
    unfold sampleTerminal
    rw [h]
    rfl
  have hn : (addCommands sampleTerminal (List.replicate 256 (nameLED, cbPlain)))._numCommands
      = 0 := by
    rw [e2]
    unfold addCommand
    simp only [List.length_replicate]
  refine ⟨hn, by rw [commandTable, hn, List.take_zero], ?_⟩
  have hs := readSerial_silent (addCommands sampleTerminal (List.replicate 256 (nameLED, cbPlain)))
    nameLED (by rw [e2]; exact ⟨rfl, rfl, rfl⟩) hn (by rw [e2]; rfl) (by rw [e2]; rfl)
    (by rw [e2]; rfl) (by rw [e2]; decide)
  have hnl : (addCommands sampleTerminal (List.replicate 256 (nameLED, cbPlain)))._newlineChar
      = 10 := by rw [e2]; rfl
  rw [hnl] at hs
  exact hs

theorem restOrNone_eq_none (rest : List Nat) : restOrNone rest = none ↔ rest = [] := by
  unfold restOrNone
  split
  · next h => simp [h]
  · next h => simp [h]

/-- the first entry that compares equal to the first token of a line is the one invoked -/
theorem first_match_dispatched (t : SerialTerminal) (m : Bool) (line tok : List Nat)
    (args : List (List Nat)) (pre post : List SerialTerminalCallback)
    (e : SerialTerminalCallback)
    (hempty : RxEmpty t) (hnl : t._newlineChar ∉ line)
    (htok : tokensOf (cstr t._delimiter) (captureFrom 0 line) = tok :: args)
    (htable : commandTable t = pre ++ e :: post)
    (hpre : ∀ x ∈ pre, strncmp tok x.command ST_NUM_COMMAND_CHARS ≠ 0)
    (he : strncmp tok e.command ST_NUM_COMMAND_CHARS = 0) :
    ∃ returned, handlerEvents (readSerialLoop t m (line ++ [t._newlineChar])).events =
      [Event.command e.function returned] := by
  have hfind : findCommand tok (commandTable t) = some e := by
    rw [htable]; exact findCommand_first tok pre post e hpre he
  exact ⟨_, by rw [handlerEvents_line t m line hempty hnl,
    lineDispatch_found t m _ tok args e htok hfind]⟩

theorem cstr_of_ne_zero (l : List Nat) (h : ∀ c ∈ l, c ≠ 0) : cstr l = l := by
  unfold cstr
  rw [List.takeWhile_eq_self_iff]
  intro c hc; simpa using h c hc

theorem readSerialLoop_full (t : SerialTerminal) (m : Bool) (xs : List Nat)
    (hfull : ¬ t._rxBufferIndex < ST_RX_BUFFER_SIZE) (hnl : t._newlineChar ∉ xs) :
    (readSerialLoop t m xs).term = t ∧ (readSerialLoop t m xs).matched = m := by
  induction xs with
  | nil => exact ⟨rfl, rfl⟩
  | cons c cs ih =>
    have hc : c ≠ t._newlineChar := fun e => hnl (by simp [e])
    have hcs : t._newlineChar ∉ cs := fun e => hnl (by simp [e])
    have hstep : (readSerialStep t m c).term = t ∧ (readSerialStep t m c).matched = m := by
      unfold readSerialStep
      rw [if_neg hc]
      split
      · exact ⟨storeChar_full t c hfull, rfl⟩
      · exact ⟨rfl, rfl⟩
    simp only [readSerialLoop, hstep.1, hstep.2]
    exact ih hcs

theorem captureFrom_printable_line (line : List Nat) (hprint : ∀ c ∈ line, isprint c = true) :
    captureFrom 0 line = line.take ST_RX_BUFFER_SIZE := by
  unfold captureFrom
  rw [List.filter_eq_self.2 hprint, Nat.sub_zero]

theorem nextToken_all_delims (delim cap : List Nat) (h : ∀ c ∈ cap, c ∈ delim) :
    (nextToken delim cap).1 = none := by
  have : cap.dropWhile (fun c => delim.contains c) = [] := by
    rw [List.dropWhile_eq_nil_iff]
    intro c hc; simpa using h c hc
  unfold nextToken
  rw [if_pos this]

theorem lineDispatch_no_token (t : SerialTerminal) (m : Bool) (cap : List Nat)
    (h : ∀ c ∈ cap, c ∈ cstr t._delimiter) : (lineDispatch t m cap).events = [] := by
  unfold lineDispatch
  rw [nextToken_all_delims _ _ h]

theorem rxEmpty_clearBuffer (t : SerialTerminal)
    (h : t._rxBuffer.length = ST_RX_BUFFER_SIZE + 1) : RxEmpty (clearBuffer t) := by
  refine ⟨by simpa [clearBuffer] using h, rfl, ?_⟩
  cases hb : t._rxBuffer with
  | nil => rw [hb] at h; simp at h
  | cons y post => simp [clearBuffer, hb]

theorem rxEmpty_of_captured {t : SerialTerminal} (h : Captured t []) : RxEmpty t := by
  obtain ⟨h1, h2, ⟨post, h3⟩, _⟩ := h
  exact ⟨h1, h2, by rw [h3]; rfl⟩

theorem readSerialStep_discard (t : SerialTerminal) (m : Bool) (c : Nat)
    (hc : c ≠ t._newlineChar) (hp : isprint c = false) :
    readSerialStep t m c = ⟨t, m, []⟩ := by
  unfold readSerialStep
  rw [if_neg hc, if_neg (by simp [hp])]

theorem strtok_r_mem (mem delim : List Nat) (s : Nat) :
    (strtok_r mem s delim).mem = writeNul mem (strtokWrite mem s delim) := by
  unfold strtok_r strtokWrite
  by_cases h0 : mem.getD s 0 = 0
  · simp only [if_pos h0, writeNul]
  · simp only [if_neg h0]
    by_cases h1 : mem.getD (s + strspn (mem.drop s) delim) 0 = 0
    · simp only [if_pos h1, writeNul]
    · simp only [if_neg h1]
      by_cases h2 : mem.getD (s + strspn (mem.drop s) delim +
          strcspn (mem.drop (s + strspn (mem.drop s) delim)) delim) 0 = 0
      · simp only [if_pos h2, writeNul]
      · simp only [if_neg h2, writeNul]

theorem writeNul_length (mem : List Nat) (w : Option Nat) :
    (writeNul mem w).length = mem.length := by
  cases w <;> simp [writeNul]

theorem writeNul_zero (mem : List Nat) (w : Option Nat) (i : Nat) (h : mem[i]? = some 0) :
    (writeNul mem w)[i]? = some 0 := by
  cases w with
  | none => exact h
  | some e =>
    simp only [writeNul, List.getElem?_set]
    split
    · next he =>
      subst he
      have : e < mem.length := by
        by_contra hlt
        rw [List.getElem?_eq_none (by omega)] at h
        simp at h
      simp [this]
    · exact h

theorem strtok_r_length (mem delim : List Nat) (s : Nat) :
    (strtok_r mem s delim).mem.length = mem.length := by
  rw [strtok_r_mem, writeNul_length]

theorem strtok_r_zero (mem delim : List Nat) (s i : Nat) (h : mem[i]? = some 0) :
    (strtok_r mem s delim).mem[i]? = some 0 := by
  rw [strtok_r_mem]; exact writeNul_zero mem _ i h

/-- what no tokenizer call changes about the buffer: its size and the NUL bytes in it -/
theorem strtokNull_buffer (t : SerialTerminal) (delim : List Nat) :
    (strtokNull t delim).1._rxBuffer.length = t._rxBuffer.length ∧
    ∀ i : Nat, t._rxBuffer[i]? = some 0 → (strtokNull t delim).1._rxBuffer[i]? = some 0 := by
  unfold strtokNull
  cases t._lastPos with
  | none => exact ⟨rfl, fun _ h => h⟩
  | some p => exact ⟨strtok_r_length _ _ _, fun i h => strtok_r_zero _ _ _ i h⟩

theorem tokCall_buffer (t : SerialTerminal) (c : TokCall) :
    (tokCall t c).1._rxBuffer.length = t._rxBuffer.length ∧
    ∀ i : Nat, t._rxBuffer[i]? = some 0 → (tokCall t c).1._rxBuffer[i]? = some 0 := by
  cases c
  · exact strtokNull_buffer t _
  · exact strtokNull_buffer t _

theorem runCalls_buffer (t : SerialTerminal) (calls : List TokCall) :
    (runCalls t calls).1._rxBuffer.length = t._rxBuffer.length ∧
    ∀ i : Nat, t._rxBuffer[i]? = some 0 → (runCalls t calls).1._rxBuffer[i]? = some 0 := by
  induction calls generalizing t with
  | nil => exact ⟨rfl, fun _ h => h⟩
  | cons c cs ih =>
    have h1 := tokCall_buffer t c
    have h2 := ih (tokCall t c).1
    exact ⟨h2.1.trans h1.1, fun i h => h2.2 i (h1.2 i h)⟩

theorem dispatch_length (t : SerialTerminal) (m : Bool) (i : Nat) :
    (dispatch t m i).term._rxBuffer.length = t._rxBuffer.length := by
  unfold dispatch
  split
  · exact (runCalls_buffer t _).1
  · split
    · exact (runCalls_buffer t _).1
    · rfl

theorem dispatchToken_length (t : SerialTerminal) (m : Bool) (ptr : Option Nat) :
    (dispatchToken t m ptr).term._rxBuffer.length = t._rxBuffer.length := by
  cases ptr with
  | none => rfl
  | some i => exact dispatch_length t m i

theorem runPost_length (t : SerialTerminal) :
    (runPost t).1._rxBuffer.length = t._rxBuffer.length := by
  unfold runPost
  cases t._postCommandHandler with
  | none => rfl
  | some f => exact (runCalls_buffer t f.calls).1

theorem processLine_length (t : SerialTerminal) (m : Bool) :
    (processLine t m).term._rxBuffer.length = t._rxBuffer.length :=
  (runPost_length _).trans ((dispatchToken_length _ m _).trans (strtok_r_length _ _ _))

/-- the newline branch leaves an empty receive buffer -/
theorem readSerialStep_newline_rxEmpty (t : SerialTerminal) (m : Bool)
    (h : t._rxBuffer.length = ST_RX_BUFFER_SIZE + 1) :
    (readSerialStep t m t._newlineChar).term = clearBuffer (processLine t m).term ∧
    RxEmpty (readSerialStep t m t._newlineChar).term := by
  have e : (readSerialStep t m t._newlineChar).term = clearBuffer (processLine t m).term := by
    unfold readSerialStep; rw [if_pos rfl]
  exact ⟨e, by rw [e]; exact rxEmpty_clearBuffer _ ((processLine_length t m).trans h)⟩

theorem captured_cstr {t : SerialTerminal} {cap : List Nat} (h : Captured t cap) :
    cstr t._rxBuffer = cap := by
  obtain ⟨_, _, ⟨post, hbuf⟩, hnz⟩ := h
  rw [hbuf, cstr_append_nul _ _ hnz]

/-- a line read into an empty buffer is processed as the configuration alone determines -/
theorem readSerialLoop_line_config (t u : SerialTerminal) (m : Bool) (line : List Nat)
    (ht : RxEmpty t) (hu : RxEmpty u) (hc : config t = config u)
    (hnl : t._newlineChar ∉ line) :
    (readSerialLoop t m (line ++ [t._newlineChar])).events =
      (readSerialLoop u m (line ++ [u._newlineChar])).events := by
  have hf := config_fields hc
  rw [(readSerialLoop_line t m line (captured_of_rxEmpty ht) hnl).2.1,
    (readSerialLoop_line u m line (captured_of_rxEmpty hu) (by rw [← hf.2.2.1]; exact hnl)).2.1,
    lineEvents_config hc]
  unfold echoChars
  rw [hf.2.2.2.2.2.2]

theorem bufferInv_of_rxEmpty {t : SerialTerminal} (h : RxEmpty t) : BufferInv t := by
  obtain ⟨h1, h2, h3⟩ := h
  refine ⟨h1, by rw [h2]; omega, ?_⟩
  rw [h2]
  cases hb : t._rxBuffer with
  | nil => rw [hb] at h3; simp at h3
  | cons y post => rw [hb] at h3; simpa using h3

theorem takeWhile_getD (q : Nat → Bool) (l : List Nat) (j : Nat)
    (h : j < (l.takeWhile q).length) : q (l.getD j 0) = true := by
  induction l generalizing j with
  | nil => simp at h
  | cons a l ih =>
    by_cases hq : q a = true
    · rw [List.takeWhile_cons_of_pos hq] at h
      cases j with
      | zero => simpa using hq
      | succ j =>
        simp only [List.length_cons, Nat.add_lt_add_iff_right] at h
        simpa using ih j h
    · rw [List.takeWhile_cons_of_neg hq] at h; simp at h

theorem strspn_nonzero (mem delim : List Nat) (s j : Nat) (h : j < strspn (mem.drop s) delim) :
    mem.getD (s + j) 0 ≠ 0 := by
  have := takeWhile_getD _ _ j h
  rw [← getD_add_drop] at this
  simp only [Bool.and_eq_true, bne_iff_ne] at this
  exact this.1

theorem strcspn_nonzero (mem delim : List Nat) (s j : Nat)
    (h : j < strcspn (mem.drop s) delim) : mem.getD (s + j) 0 ≠ 0 := by
  have := takeWhile_getD _ _ j h
  rw [← getD_add_drop] at this
  simp only [Bool.and_eq_true, bne_iff_ne] at this
  exact this.1

/-- The write of `strtok_r` lies before the first NUL at or after its start. -/
theorem strtokWrite_lt (mem delim : List Nat) (s e z : Nat)
    (hw : strtokWrite mem s delim = some e) (hz : mem.getD z 0 = 0) (hsz : s ≤ z) : e < z := by
  unfold strtokWrite at hw
  split at hw
  · simp at hw
  · split at hw
    · simp at hw
    · split at hw
      · simp at hw
      · next h0 h1 h2 =>
        simp only [Option.some.injEq] at hw
        by_contra hlt
        have hze : z ≤ e := by omega
        by_cases hz1 : z < s + strspn (mem.drop s) delim
        · have := strspn_nonzero mem delim s (z - s) (by omega)
          rw [show s + (z - s) = z by omega] at this
          exact this hz
        · by_cases hz2 : z < e
          · have := strcspn_nonzero mem delim (s + strspn (mem.drop s) delim)
              (z - (s + strspn (mem.drop s) delim)) (by omega)
            rw [show s + strspn (mem.drop s) delim + (z - (s + strspn (mem.drop s) delim)) = z by
              omega] at this
            exact this hz
          · have : z = e := by omega
            rw [this, ← hw] at hz
            exact h2 hz

theorem getD_of_getElem? (l : List Nat) (i : Nat) (h : l[i]? = some 0) : l.getD i 0 = 0 := by
  simp [List.getD_eq_getElem?_getD, h]

theorem stepWrites_bound (t : SerialTerminal) (c : Nat) (h : BufferInv t) :
    ∀ i ∈ stepWrites t c, i < ST_RX_BUFFER_SIZE + 1 := by
  obtain ⟨_, h2, h3⟩ := h
  intro i hi
  unfold stepWrites at hi
  split at hi
  · rcases List.mem_append.1 hi with h1 | h1
    · cases hw : strtokWrite t._rxBuffer 0 (cstr t._delimiter) with
      | none => rw [hw] at h1; simp at h1
      | some e =>
        rw [hw] at h1
        simp only [Option.toList_some, List.mem_singleton] at h1
        have := strtokWrite_lt _ _ 0 e _ hw (getD_of_getElem? _ _ h3) (Nat.zero_le _)
        omega
    · simp only [List.mem_singleton] at h1; omega
  · split at hi
    · split at hi
      · simp only [List.mem_cons, List.mem_singleton, List.not_mem_nil, or_false] at hi
        omega
      · simp at hi
    · simp at hi

theorem storeChar_bufferInv (t : SerialTerminal) (c : Nat) (h : BufferInv t) :
    BufferInv (storeChar t c).1 := by
  obtain ⟨h1, h2, h3⟩ := h
  unfold storeChar
  split
  · next hlt =>
    refine ⟨by simpa using h1, by simp only; omega, ?_⟩
    simp only
    rw [List.getElem?_set_self (by simp only [List.length_set]; omega)]
  · exact ⟨h1, h2, h3⟩

theorem readSerialStep_bufferInv (t : SerialTerminal) (m : Bool) (c : Nat) (h : BufferInv t) :
    BufferInv (readSerialStep t m c).term := by
  by_cases hc : c = t._newlineChar
  · subst hc
    exact bufferInv_of_rxEmpty (readSerialStep_newline_rxEmpty t m h.1).2
  · unfold readSerialStep
    rw [if_neg hc]
    split
    · exact storeChar_bufferInv t c h
    · exact h

theorem readSerialLoop_bufferInv (input : List Nat) (t : SerialTerminal) (m : Bool)
    (h : BufferInv t) :
    BufferInv (readSerialLoop t m input).term ∧
    ∀ i ∈ readSerialWrites t m input, i < ST_RX_BUFFER_SIZE + 1 := by
  induction input generalizing t m with
  | nil => exact ⟨h, by simp [readSerialWrites]⟩
  | cons c cs ih =>
    have := ih (readSerialStep t m c).term (readSerialStep t m c).matched
      (readSerialStep_bufferInv t m c h)
    refine ⟨this.1, ?_⟩
    intro i hi
    rcases List.mem_append.1 hi with h1 | h1
    · exact stepWrites_bound t c h i h1
    · exact this.2 i h1

theorem strtokNull_bufferInv (t : SerialTerminal) (delim : List Nat) (h : BufferInv t) :
    BufferInv (strtokNull t delim).1 := by
  obtain ⟨h1, h2, h3⟩ := h
  have hb := strtokNull_buffer t delim
  have hf := (strtokNull_frame t delim).2
  exact ⟨hb.1.trans h1, by rw [hf]; exact h2, by rw [hf]; exact hb.2 _ h3⟩

theorem applyOp_bufferInv (t : SerialTerminal) (op : Op) (h : BufferInv t) :
    BufferInv (applyOp t op) := by
  cases op with
  | addCommand command function => exact h
  | setSerialEcho doEcho => exact h
  | setPostCommandHandler function => exact h
  | setDefaultHandler function => exact h
  | clearBuffer => exact bufferInv_of_rxEmpty (rxEmpty_clearBuffer t h.1)
  | getNext => exact strtokNull_bufferInv t _ h
  | getRemaining => exact strtokNull_bufferInv t _ h
  | readSerial input => exact (readSerialLoop_bufferInv input t false h).1

theorem applyOps_bufferInv (ops : List Op) (t : SerialTerminal) (h : BufferInv t) :
    BufferInv (applyOps t ops) := by
  induction ops generalizing t with
  | nil => exact h
  | cons op ops ih => exact ih (applyOp t op) (applyOp_bufferInv t op h)

/-- outside the indices listed by `stepWrites`, the printable branch leaves the buffer as it
is -/
theorem storeChar_outside_writes (t : SerialTerminal) (c i : Nat)
    (hc : c ≠ t._newlineChar) (hp : isprint c = true) (hi : i ∉ stepWrites t c) :
    (storeChar t c).1._rxBuffer[i]? = t._rxBuffer[i]? := by
  unfold stepWrites at hi
  rw [if_neg hc, if_pos hp] at hi
  unfold storeChar
  split
  · next hlt =>
    rw [if_pos hlt] at hi
    simp only [List.mem_cons, List.mem_singleton, List.not_mem_nil, or_false, not_or] at hi
    simp only
    rw [List.getElem?_set_ne (Ne.symm hi.2), List.getElem?_set_ne (Ne.symm hi.1)]
  · rfl

/-- the echo of a run of characters without newline, and what is captured of it -/
theorem readSerialLoop_echo (t : SerialTerminal) (m : Bool) (line : List Nat)
    (hempty : RxEmpty t) (hecho : t.doCharEcho = true) (hnl : t._newlineChar ∉ line) :
    (readSerialLoop t m line).events = (line.filter isprint).map Event.print ∧
    cstr (readSerialLoop t m line).term._rxBuffer
      = (line.filter isprint).take ST_RX_BUFFER_SIZE := by
  have h := readSerialLoop_chars t m line [] (captured_of_rxEmpty hempty) hnl
  refine ⟨?_, ?_⟩
  · rw [h.2.2.1]; unfold echoChars; rw [if_pos hecho]
  · have := captured_cstr h.1
    simpa [captureFrom] using this

theorem cstr_delimiter (d : Nat) (hd : d ≠ 0) : cstr [d, 0] = [d] := by
  simp [cstr, List.takeWhile_cons, hd]

/-- without post command callback and with echo off, `readSerial` produces no event but the
invocations of command callbacks and of the default callback -/
theorem readSerialLoop_quiet (input : List Nat) (t : SerialTerminal) (m : Bool)
    (hp : t._postCommandHandler = none) (he : t.doCharEcho = false) :
    ∀ e ∈ (readSerialLoop t m input).events, (e.isCommand || e.isDefault) = true := by
  induction input generalizing t m with
  | nil => simp [readSerialLoop]
  | cons c cs ih =>
    have hf := config_fields (readSerialStep_frame t m c)
    have hrest := ih (readSerialStep t m c).term (readSerialStep t m c).matched
      (by rw [hf.2.2.2.2.2.1]; exact hp) (by rw [hf.2.2.2.2.2.2]; exact he)
    have hstep : ∀ e ∈ (readSerialStep t m c).events, (e.isCommand || e.isDefault) = true := by
      unfold readSerialStep
      split
      · have hd := dispatchToken_frame (strtokBuffer t).1 m (strtokBuffer t).2
        have hpd : (dispatchToken (strtokBuffer t).1 m (strtokBuffer t).2).term._postCommandHandler
            = none := by
          rw [(config_fields (dispatched_frame t m).1).2.2.2.2.2.1]; exact hp
        have hpost : (runPost (dispatchToken (strtokBuffer t).1 m (strtokBuffer t).2).term).2
            = [] := by
          unfold runPost; rw [hpd]
        have hecho : echoNewline t = [] := by unfold echoNewline; rw [he]; rfl
        simp only [processLine, hpost, hecho, List.nil_append, List.append_nil]
        exact fun e h => (hd.2.2.2 e h).2
      · split
        · unfold storeChar; rw [he]; simp
        · simp
    intro e h
    simp only [readSerialLoop] at h
    rcases List.mem_append.1 h with h1 | h1
    · exact hstep e h1
    · exact hrest e h1

/-- an object constructed over zeroed memory has no post command callback and echo off, and
stays quiet -/
theorem new_zeroed_quiet (nl d : Nat) (uninit : SerialTerminal) (m : Bool) (input : List Nat)
    (hp : uninit._postCommandHandler = none) (he : uninit.doCharEcho = false) :
    (new nl d uninit)._postCommandHandler = none ∧ (new nl d uninit).doCharEcho = false ∧
    ∀ e ∈ (readSerialLoop (new nl d uninit) m input).events,
      (e.isCommand || e.isDefault) = true :=
  ⟨hp, he, readSerialLoop_quiet input _ m hp he⟩

/-- two `readSerial` calls equal one call on the joined input when the first part leaves the
local `matched` false -/
theorem readSerial_split_unmatched (t : SerialTerminal) (xs ys : List Nat)
    (h : (readSerialLoop t false xs).matched = false) :
    readSerial t (xs ++ ys) =
      ((readSerial (readSerial t xs).1 ys).1,
       (readSerial t xs).2 ++ (readSerial (readSerial t xs).1 ys).2) := by
  unfold readSerial
  rw [readSerialLoop_append, h]

theorem strtokNull_defined (t : SerialTerminal) (delim : List Nat)
    (h : tokenizerDefined t = true) : tokenizerDefined (strtokNull t delim).1 = true := by
  unfold tokenizerDefined at h ⊢
  unfold strtokNull
  cases hp : t._lastPos with
  | none => rw [hp] at h; simp at h
  | some p => rfl

theorem tokCall_defined (t : SerialTerminal) (c : TokCall) (h : tokenizerDefined t = true) :
    tokenizerDefined (tokCall t c).1 = true := by
  cases c
  · exact strtokNull_defined t _ h
  · exact strtokNull_defined t _ h

/-- from an object with a saved position, every tokenizer call of a callback is defined -/
theorem callsDefined_of_defined (calls : List TokCall) (t : SerialTerminal)
    (h : tokenizerDefined t = true) :
    callsDefined t calls = true ∧ tokenizerDefined (runCalls t calls).1 = true := by
  induction calls generalizing t with
  | nil => exact ⟨rfl, h⟩
  | cons c cs ih =>
    have := ih (tokCall t c).1 (tokCall_defined t c h)
    exact ⟨by simp only [callsDefined, h, this.1, Bool.and_self], this.2⟩

theorem dispatchToken_defined (t : SerialTerminal) (m : Bool) (ptr : Option Nat)
    (h : tokenizerDefined t = true) : tokenizerDefined (dispatchToken t m ptr).term = true := by
  cases ptr with
  | none => exact h
  | some i =>
    show tokenizerDefined (dispatch t m i).term = true
    unfold dispatch
    split
    · exact (callsDefined_of_defined _ t h).2
    · split
      · exact (callsDefined_of_defined _ t h).2
      · exact h

/-- The callbacks that the newline branch of `readSerial` invokes make all their tokenizer
calls with a saved position: the branch of `strtokNull` for `_lastPos == NULL` is not taken
while a line is handled. -/
theorem processLine_calls_defined (t : SerialTerminal) (m : Bool) (calls posts : List TokCall) :
    callsDefined (strtokBuffer t).1 calls = true ∧
    callsDefined (dispatchToken (strtokBuffer t).1 m (strtokBuffer t).2).term posts = true :=
  ⟨(callsDefined_of_defined calls (strtokBuffer t).1 rfl).1,
   (callsDefined_of_defined posts _
     (dispatchToken_defined (strtokBuffer t).1 m (strtokBuffer t).2 rfl)).1⟩

/-- On a freshly constructed object `getNext` and `getRemaining` are not defined. -/
theorem runOps_fresh_tokenizer_undefined (nl d : Nat) (uninit : SerialTerminal) :
    runOps (new nl d uninit) false [Op.getNext] = none ∧
    runOps (new nl d uninit) false [Op.getRemaining] = none := by
  constructor <;> rfl

/-- A newline read while `_postCommandHandler` holds what the memory held before the
constructor, and that is not null, is not defined. -/
theorem runOps_dirty_newline_undefined :
    runOps (new 10 32 dirtyUninit) false [Op.readSerial [65, 10]] = none ∧
    runOps (new 10 32 dirtyUninit) false
      [Op.setPostCommandHandler none, Op.readSerial [65, 10]] ≠ none := by
  constructor <;> decide

/-- Claim C1, as stated, fails in three ways. (1) `LONGCOMMAND1` and `LONGCOMMAND2` are both
registered, and the line `LONGCOMMAND2` invokes the callback registered with `LONGCOMMAND1`,
not the one registered with `LONGCOMMAND2`: the names agree on their first 8 characters.
(2) The first token of the line of 30 spaces followed by `LED` is `LED`, which is
registered, but only 32 characters are captured and no callback is invoked. (3) After 256
registrations of `LED` the line `LED` invokes no callback. -/
theorem C1_counterexample_registered_name_not_dispatched :
    (RxEmpty termLongs ∧
      termLongs._commandList = [entryOf nameLong1 cbPlain, entryOf nameLong2 cbOther] ∧
      tokensOf [32] nameLong2 = [nameLong2] ∧
      (readSerial termLongs (nameLong2 ++ [10])).2 = [Event.command cbPlain []]) ∧
    (RxEmpty termLed ∧ termLed._commandList = [entryOf nameLED cbTwoNext] ∧
      tokensOf [32] lineSpacesLed = [nameLED] ∧
      (readSerial termLed (lineSpacesLed ++ [10])).2 = []) ∧
    (readSerial (addCommands sampleTerminal (List.replicate 256 (nameLED, cbPlain)))
      (nameLED ++ [10])).2 = [] :=
  ⟨⟨by decide, by decide, by decide, by decide⟩, ⟨by decide, by decide, by decide, by decide⟩,
   registrations_256_wrap.2.2⟩

/-- Claim C1, amended. For a command table made of the entries `addCommand` writes for the
registrations `before`, then `(name, f)`, then `after`, where no name of `before` agrees with
`name` on the first 8 characters: when `readSerial` starts with an empty receive buffer and
reads a line whose captured content (its printable characters, at most the first 32) has
`name` as first delimiter-separated token, terminated by the newline character, then `f` is
invoked once and no other command callback and not the default callback is invoked. -/
theorem C1_registered_command_dispatched (t : SerialTerminal) (line name : List Nat)
    (args : List (List Nat)) (f : Callback) (before after : List (List Nat × Callback))
    (hempty : RxEmpty t) (hnl : t._newlineChar ∉ line)
    (htable : commandTable t =
      (before ++ (name, f) :: after).map (fun r => entryOf r.1 r.2))
    (hbefore : ∀ r ∈ before,
      (cstr r.1).take ST_NUM_COMMAND_CHARS ≠ name.take ST_NUM_COMMAND_CHARS)
    (htok : tokensOf (cstr t._delimiter) (captureFrom 0 line) = name :: args) :
    ∃ returned, handlerEvents (readSerial t (line ++ [t._newlineChar])).2 =
      [Event.command f returned] := by
  have hnz : ∀ c ∈ name, c ≠ 0 := fun c hc =>
    isprint_ne_zero (captureFrom_printable 0 line c
      (nextToken_mem _ _ _ (nextToken_of_tokens _ _ _ _ htok).1 c hc))
  have htable2 : commandTable t =
      before.map (fun r => entryOf r.1 r.2) ++ entryOf name f ::
        after.map (fun r => entryOf r.1 r.2) := by
    rw [htable]; simp
  have hpre : ∀ x ∈ before.map (fun r => entryOf r.1 r.2),
      strncmp name x.command ST_NUM_COMMAND_CHARS ≠ 0 := by
    intro x hx
    obtain ⟨r, hr, rfl⟩ := List.mem_map.1 hx
    intro h0
    exact hbefore r hr ((strncmp_padded name (cstr r.1) _ hnz (cstr_ne_zero r.1)).1 h0).symm
  have he : strncmp name (entryOf name f).command ST_NUM_COMMAND_CHARS = 0 := by
    refine (strncmp_padded name (cstr name) _ hnz (cstr_ne_zero name)).2 ?_
    rw [cstr_of_ne_zero name hnz]
  exact first_match_dispatched t false line name args _ _ (entryOf name f) hempty hnl htok
    htable2 hpre he

/-- Claim C1, amended, on the table `LONGCOMMAND1`, `LED` with a default callback and the
line `LED ON`: the callback of `LED` is the only one invoked. -/
theorem C1_registered_command_dispatched_witness :
    RxEmpty termLongLed ∧ termLongLed._newlineChar ∉ lineLedOn ∧
    tokensOf (cstr termLongLed._delimiter) (captureFrom 0 lineLedOn) = nameLED :: [[79, 78]] ∧
    ∃ returned, handlerEvents (readSerial termLongLed (lineLedOn ++ [10])).2
      = [Event.command cbTwoNext returned] :=
  ⟨by decide, by decide, by decide,
   C1_registered_command_dispatched termLongLed lineLedOn nameLED [[79, 78]] cbTwoNext
     [(nameLong1, cbPlain)] [] (by decide) (by decide) (by decide) (by decide) (by decide)⟩

/-! ### Claim C2 -/

/-- Claim C2 fails on the code. With `LED` registered and a default callback set, one
`readSerial` call drains the lines `LED` and `foo`: the local `matched` is still `true` from
the first line, so the default callback is not invoked for `foo`; the same line `foo` read by
a call of its own does invoke the default callback with `foo`. -/
theorem C2_default_skipped_after_matched_line :
    (readSerial termLedDefault [76, 69, 68, 10, 102, 111, 111, 10]).2 = [Event.command cbPlain []] ∧
    (readSerial termLedDefault [102, 111, 111, 10]).2 = [Event.defaultHandler cbOther [102, 111, 111] []] := by
  constructor <;> decide

/-! ### Claim C3 -/

/-- Claim C3. With a post command callback `p` registered, in every state of the object and
for every input: (1) the events of a `readSerial` loop contain exactly one invocation of the
post command callback per newline character read; (2) for one newline character, the events
are the echoed line break, then at most one invocation of a command or default callback,
then the invocation of `p` as last event; (3) the object left by the step is `clearBuffer`
applied to the object the post command callback leaves, and the callback is invoked while
`_rxBufferIndex` still has the value it had when the newline character arrived. -/
theorem C3_post_handler_once_per_line (t : SerialTerminal) (m : Bool) (p : Callback)
    (input : List Nat) (h : t._postCommandHandler = some p) :
    (readSerialLoop t m input).events.countP Event.isPost = input.count t._newlineChar ∧
    ∃ s : Loop,
      s.events.length ≤ 1 ∧
      (∀ e ∈ s.events, e.isPost = false ∧ (e.isCommand || e.isDefault) = true) ∧
      (readSerialStep t m t._newlineChar).events =
        echoNewline t ++ s.events ++ [Event.postCommand p (runCalls s.term p.calls).2] ∧
      (readSerialStep t m t._newlineChar).term = clearBuffer (runCalls s.term p.calls).1 ∧
      s.term._rxBufferIndex = t._rxBufferIndex ∧
      (runCalls s.term p.calls).1._rxBufferIndex = t._rxBufferIndex := by
  refine ⟨countP_isPost_loop input t m p h, dispatchToken (strtokBuffer t).1 m (strtokBuffer t).2,
    ?_⟩
  have hd := dispatchToken_frame (strtokBuffer t).1 m (strtokBuffer t).2
  have hp : (dispatchToken (strtokBuffer t).1 m (strtokBuffer t).2).term._postCommandHandler
      = some p := by
    rw [(config_fields (dispatched_frame t m).1).2.2.2.2.2.1]; exact h
  have hr : runPost (dispatchToken (strtokBuffer t).1 m (strtokBuffer t).2).term =
      ((runCalls (dispatchToken (strtokBuffer t).1 m (strtokBuffer t).2).term p.calls).1,
       [Event.postCommand p
         (runCalls (dispatchToken (strtokBuffer t).1 m (strtokBuffer t).2).term p.calls).2]) := by
    unfold runPost; rw [hp]
  refine ⟨hd.2.2.1, hd.2.2.2, ?_, ?_, (dispatched_frame t m).2,
    (runCalls_frame _ _).2.trans (dispatched_frame t m).2⟩
  · unfold readSerialStep; rw [if_pos rfl]
    simp only [processLine, hr]
  · unfold readSerialStep; rw [if_pos rfl]
    simp only [processLine, hr]

/-- Claim C3 on a terminal with a post command callback and an input with two newline
characters, an empty line and the line `LED`, followed by an unfinished line. -/
theorem C3_post_handler_once_per_line_witness :
    termLedPost._postCommandHandler = some cbPlain ∧
    (readSerialLoop termLedPost false [10, 76, 69, 68, 10, 65]).events.countP Event.isPost
      = 2 :=
  ⟨rfl, (C3_post_handler_once_per_line termLedPost false cbPlain [10, 76, 69, 68, 10, 65] rfl).1⟩

/-! ### Claim C4 -/

/-- Claim C4. For a line read into an empty receive buffer whose command token `tok` is found
in the table, with entry `e`: the callback of `e` is the only command or default callback
invoked, and when it makes `k` successive `getNext` calls, the `i`-th call returns the
`i`-th further token of the captured line and none once the tokens are used up, where
`tok` followed by these tokens is the list of maximal non-empty runs of non-delimiter
characters of the captured line. The statement holds for every value `m` of the local
`matched`, that is for every line of a `readSerial` call. -/
theorem C4_tokens_are_maximal_runs (t : SerialTerminal) (m : Bool) (line tok : List Nat)
    (args : List (List Nat)) (e : SerialTerminalCallback) (k : Nat)
    (hempty : RxEmpty t) (hnl : t._newlineChar ∉ line)
    (htok : tokensOf (cstr t._delimiter) (captureFrom 0 line) = tok :: args)
    (hfind : findCommand tok (commandTable t) = some e)
    (hcalls : e.function.calls = List.replicate k TokCall.getNext) :
    handlerEvents (readSerialLoop t m (line ++ [t._newlineChar])).events =
      [Event.command e.function ((List.range k).map (fun i => args[i]?))] := by
  rw [handlerEvents_line t m line hempty hnl, lineDispatch_found t m _ tok args e htok hfind,
    hcalls, (absRun_getNext _ _ k).1, (nextToken_of_tokens _ _ _ _ htok).2]

/-- Claim C4 on the line `LED ON` with `LED` registered for a callback that calls `getNext`
twice: the first call returns `ON`, the second returns none. -/
theorem C4_tokens_are_maximal_runs_witness :
    RxEmpty termLed ∧
    tokensOf (cstr termLed._delimiter) (captureFrom 0 lineLedOn) = nameLED :: [[79, 78]] ∧
    handlerEvents (readSerialLoop termLed false (lineLedOn ++ [10])).events =
      [Event.command cbTwoNext [some [79, 78], none]] :=
  ⟨by decide, by decide,
   C4_tokens_are_maximal_runs termLed false lineLedOn nameLED [[79, 78]]
     (entryOf nameLED cbTwoNext) 2 (by decide) (by decide) (by decide) (by decide) (by decide)⟩

/-! ### Claim C5 -/

/-- Claim C5. For a line of more than 32 printable characters, none of them the newline
character, read into an empty receive buffer: when the newline arrives the buffer holds
exactly the first 32 characters, with length 32; the object is the one that reading only
these 32 characters produces, also after the newline; and the command and default callbacks
invoked for the line, with their arguments, are those of the 32 character line. -/
theorem C5_overlong_line_truncated (t : SerialTerminal) (m : Bool) (line : List Nat)
    (hempty : RxEmpty t) (hnl : t._newlineChar ∉ line)
    (hprint : ∀ c ∈ line, isprint c = true) (hlong : ST_RX_BUFFER_SIZE < line.length) :
    cstr (readSerialLoop t m line).term._rxBuffer = line.take ST_RX_BUFFER_SIZE ∧
    (readSerialLoop t m line).term._rxBufferIndex = ST_RX_BUFFER_SIZE ∧
    (readSerialLoop t m line).term = (readSerialLoop t m (line.take ST_RX_BUFFER_SIZE)).term ∧
    (readSerialLoop t m (line ++ [t._newlineChar])).term =
      (readSerialLoop t m (line.take ST_RX_BUFFER_SIZE ++ [t._newlineChar])).term ∧
    handlerEvents (readSerialLoop t m (line ++ [t._newlineChar])).events =
      handlerEvents (readSerialLoop t m (line.take ST_RX_BUFFER_SIZE ++ [t._newlineChar])).events := by
  have hnl' : t._newlineChar ∉ line.take ST_RX_BUFFER_SIZE :=
    fun h => hnl (List.mem_of_mem_take h)
  have hprint' : ∀ c ∈ line.take ST_RX_BUFFER_SIZE, isprint c = true :=
    fun c h => hprint c (List.mem_of_mem_take h)
  have hcap := readSerialLoop_chars t m (line.take ST_RX_BUFFER_SIZE) []
    (captured_of_rxEmpty hempty) hnl'
  simp only [List.nil_append, List.length_nil] at hcap
  rw [captureFrom_printable_line _ hprint', List.take_take, Nat.min_self] at hcap
  have hidx : (readSerialLoop t m (line.take ST_RX_BUFFER_SIZE)).term._rxBufferIndex
      = ST_RX_BUFFER_SIZE := by
    rw [hcap.1.2.1, List.length_take]; omega
  have hf := config_fields hcap.2.2.2
  have hrest := readSerialLoop_full (readSerialLoop t m (line.take ST_RX_BUFFER_SIZE)).term m
    (line.drop ST_RX_BUFFER_SIZE) (by rw [hidx]; omega)
    (by rw [hf.2.2.1]; exact fun h => hnl (List.mem_of_mem_drop h))
  have hterm : (readSerialLoop t m line).term
      = (readSerialLoop t m (line.take ST_RX_BUFFER_SIZE)).term := by
    conv_lhs => rw [← List.take_append_drop ST_RX_BUFFER_SIZE line]
    rw [readSerialLoop_append, hcap.2.1]
    exact hrest.1
  have hmatched : (readSerialLoop t m line).matched
      = (readSerialLoop t m (line.take ST_RX_BUFFER_SIZE)).matched := by
    rw [(readSerialLoop_chars t m line [] (captured_of_rxEmpty hempty) hnl).2.1, hcap.2.1]
  refine ⟨?_, ?_, hterm, ?_, ?_⟩
  · rw [hterm]
    obtain ⟨post, hbuf⟩ := hcap.1.2.2.1
    rw [hbuf, cstr_append_nul _ _ hcap.1.2.2.2]
  · rw [hterm, hidx]
  · rw [readSerialLoop_append, readSerialLoop_append, hterm, hmatched]
  · rw [handlerEvents_line t m line hempty hnl, handlerEvents_line t m _ hempty hnl',
      captureFrom_printable_line _ hprint, captureFrom_printable_line _ hprint',
      List.take_take, Nat.min_self]

/-- Claim C5 on a line of 40 printable characters: the buffer holds the first 32. -/
theorem C5_overlong_line_truncated_witness :
    RxEmpty termLed ∧ ST_RX_BUFFER_SIZE < lineForty.length ∧
    cstr (readSerialLoop termLed false lineForty).term._rxBuffer
      = lineForty.take ST_RX_BUFFER_SIZE :=
  ⟨by decide, by decide,
   (C5_overlong_line_truncated termLed false lineForty (by decide) (by decide) (by decide)
     (by decide)).1⟩

/-! ### Claim C6 -/

/-- Claim C6. For the entry `addCommand` writes for the name `name` and a NUL-free token
`tok` standing in memory before its terminator: the lookup of `readSerial` finds the entry
exactly when `tok` and `name` agree on their first 8 characters, where a string shorter than
8 characters agrees only with a string of the same length; it finds nothing exactly when they
do not agree; and a token that extends a name shorter than 8 characters by at least one
character does not match it. A token of 20 characters is the case `tok.length = 20`. -/
theorem C6_lookup_compares_first_eight (t : SerialTerminal) (name tok post : List Nat)
    (f : Callback) (htok : ∀ c ∈ tok, c ≠ 0) :
    (addCommand t name f)._commandList = commandTable t ++ [entryOf name f] ∧
    (findCommand (tok ++ 0 :: post) [entryOf name f] = some (entryOf name f) ↔
      tok.take ST_NUM_COMMAND_CHARS = (cstr name).take ST_NUM_COMMAND_CHARS) ∧
    (findCommand (tok ++ 0 :: post) [entryOf name f] = none ↔
      tok.take ST_NUM_COMMAND_CHARS ≠ (cstr name).take ST_NUM_COMMAND_CHARS) ∧
    ((cstr name).length < ST_NUM_COMMAND_CHARS → ∀ ext, ext ≠ [] → tok = cstr name ++ ext →
      findCommand (tok ++ 0 :: post) [entryOf name f] = none) := by
  have key := strncmp_entryOf tok post name f htok
  have h1 : findCommand (tok ++ 0 :: post) [entryOf name f] = some (entryOf name f) ↔
      tok.take ST_NUM_COMMAND_CHARS = (cstr name).take ST_NUM_COMMAND_CHARS := by
    by_cases h0 : strncmp (tok ++ 0 :: post) (entryOf name f).command ST_NUM_COMMAND_CHARS = 0
    · simp only [findCommand, if_pos h0, key.1 h0]
    · simp only [findCommand, if_neg h0, reduceCtorEq, false_iff]
      exact fun h => h0 (key.2 h)
  have h2 : findCommand (tok ++ 0 :: post) [entryOf name f] = none ↔
      tok.take ST_NUM_COMMAND_CHARS ≠ (cstr name).take ST_NUM_COMMAND_CHARS := by
    by_cases h0 : strncmp (tok ++ 0 :: post) (entryOf name f).command ST_NUM_COMMAND_CHARS = 0
    · simp only [findCommand, if_pos h0, reduceCtorEq, false_iff, Ne, not_not]
      exact key.1 h0
    · simp only [findCommand, if_neg h0, true_iff]
      exact fun h => h0 (key.2 h)
  refine ⟨rfl, h1, h2, ?_⟩
  intro hshort ext hext htokeq
  rw [h2, htokeq]
  intro h
  have hlen := congrArg List.length h
  have : 0 < ext.length := List.length_pos.2 hext
  simp only [List.length_take, List.length_append] at hlen
  omega

/-- Claim C6 on a token of 20 characters that agrees with the registered name
`LONGCOMMAND1` on the first 8 characters: the lookup finds the entry. -/
theorem C6_lookup_compares_first_eight_witness :
    tokenTwenty.length = 20 ∧ (∀ c ∈ tokenTwenty, c ≠ 0) ∧
    findCommand (tokenTwenty ++ 0 :: []) [entryOf nameLong1 cbPlain]
      = some (entryOf nameLong1 cbPlain) :=
  ⟨by decide, by decide,
   ((C6_lookup_compares_first_eight sampleTerminal nameLong1 tokenTwenty [] cbPlain
      (by decide)).2.1).2 (by decide)⟩

/-! ### Claim C7 -/

/-- Claim C7. For a line read into an empty receive buffer with first token `tok`: when the
entries the lookup examines are `pre`, then `e`, then `post`, no entry of `pre` compares
equal to `tok` and `e` does, the callback of `e` is invoked once and is the only command or
default callback invoked, whatever entries `post` holds. -/
theorem C7_first_matching_entry_wins (t : SerialTerminal) (m : Bool) (line tok : List Nat)
    (args : List (List Nat)) (pre post : List SerialTerminalCallback)
    (e : SerialTerminalCallback)
    (hempty : RxEmpty t) (hnl : t._newlineChar ∉ line)
    (htok : tokensOf (cstr t._delimiter) (captureFrom 0 line) = tok :: args)
    (htable : commandTable t = pre ++ e :: post)
    (hpre : ∀ x ∈ pre, strncmp tok x.command ST_NUM_COMMAND_CHARS ≠ 0)
    (he : strncmp tok e.command ST_NUM_COMMAND_CHARS = 0) :
    ∃ returned, handlerEvents (readSerialLoop t m (line ++ [t._newlineChar])).events =
      [Event.command e.function returned] :=
  first_match_dispatched t m line tok args pre post e hempty hnl htok htable hpre he

/-- Claim C7 on a table with `LED` registered twice: the line `LED ON` invokes the callback
registered first. -/
theorem C7_first_matching_entry_wins_witness :
    commandTable termTwoLeds = [] ++ entryOf nameLED cbPlain :: [entryOf nameLED cbOther] ∧
    strncmp nameLED (entryOf nameLED cbOther).command ST_NUM_COMMAND_CHARS = 0 ∧
    ∃ returned,
      handlerEvents (readSerialLoop termTwoLeds false (lineLedOn ++ [10])).events
        = [Event.command cbPlain returned] :=
  ⟨by decide, by decide,
   C7_first_matching_entry_wins termTwoLeds false lineLedOn nameLED [[79, 78]] []
     [entryOf nameLED cbOther] (entryOf nameLED cbPlain) (by decide) (by decide) (by decide)
     (by decide) (by decide) (by decide)⟩

/-! ### Claim C8 -/

/-- Claim C8, as stated, fails at 256 registrations: the `byte` counter `_numCommands` wraps
to 0, so the lookup of `readSerial` examines no entry, and a line with the registered name
`LED` invokes no callback. -/
theorem C8_counterexample_256_registrations :
    (addCommands sampleTerminal (List.replicate 256 (nameLED, cbPlain)))._numCommands = 0 ∧
    commandTable (addCommands sampleTerminal (List.replicate 256 (nameLED, cbPlain))) = [] ∧
    handlerEvents (readSerial (addCommands sampleTerminal (List.replicate 256 (nameLED, cbPlain)))
      (nameLED ++ [10])).2 = [] :=
  ⟨registrations_256_wrap.1, registrations_256_wrap.2.1, by rw [registrations_256_wrap.2.2]; rfl⟩

/-- Claim C8, amended. For every number of registrations up to 255, the capacity of the `byte`
counter `_numCommands`: after the `addCommand` calls `regs` on a freshly constructed terminal
the command table holds one entry per call, in the order of the calls; `_numCommands` is their
number, so the lookup of `readSerial` examines every one of them; and the table after the
first `k` calls is the first `k` entries of the final table, so no later registration changes
an earlier entry. -/
theorem C8_table_append_only_up_to_255 (nl d : Nat) (uninit : SerialTerminal)
    (regs : List (List Nat × Callback)) (h : regs.length ≤ 255) :
    (addCommands (new nl d uninit) regs)._commandList = regs.map (fun r => entryOf r.1 r.2) ∧
    (addCommands (new nl d uninit) regs)._numCommands = regs.length ∧
    commandTable (addCommands (new nl d uninit) regs) = regs.map (fun r => entryOf r.1 r.2) ∧
    ∀ k, (addCommands (new nl d uninit) (regs.take k))._commandList =
      (addCommands (new nl d uninit) regs)._commandList.take k := by
  rw [addCommands_new nl d uninit regs h]
  refine ⟨rfl, rfl, ?_, ?_⟩
  · simp [commandTable]
  · intro k
    rw [addCommands_new nl d uninit (regs.take k) (by rw [List.length_take]; omega)]
    simp [List.map_take]

/-- Claim C8, amended, on two registrations. -/
theorem C8_table_append_only_up_to_255_witness :
    (addCommands (new 10 32 sampleUninit) [(nameLED, cbTwoNext), (nameLED, cbPlain)])._commandList
      = [entryOf nameLED cbTwoNext, entryOf nameLED cbPlain] ∧
    (addCommands (new 10 32 sampleUninit) [(nameLED, cbTwoNext), (nameLED, cbPlain)])._numCommands
      = 2 :=
  ⟨(C8_table_append_only_up_to_255 10 32 sampleUninit [(nameLED, cbTwoNext), (nameLED, cbPlain)]
      (by decide)).1,
   (C8_table_append_only_up_to_255 10 32 sampleUninit [(nameLED, cbTwoNext), (nameLED, cbPlain)]
      (by decide)).2.1⟩

/-! ### Claim C9 -/

/-- Claim C9. Once `getNext` has returned `NULL`, every later `getNext` and `getRemaining`
call returns `NULL`, for any sequence of further calls and in every state of the object; and
after a `getRemaining` call, whatever it returned, every later call returns `NULL`. Nothing
but the next tokenization of a line by `readSerial` moves the tokenizer again: the object is
left unchanged by these calls. -/
theorem C9_exhausted_tokenizer_stays_exhausted (t : SerialTerminal) (calls : List TokCall) :
    ((getNext t).2 = none →
      (runCalls (getNext t).1 calls).1 = (getNext t).1 ∧
      ∀ r ∈ (runCalls (getNext t).1 calls).2, r = none) ∧
    ((runCalls (getRemaining t).1 calls).1 = (getRemaining t).1 ∧
      ∀ r ∈ (runCalls (getRemaining t).1 calls).2, r = none) :=
  ⟨fun h => runCalls_exhausted _ calls (strtokNull_none_exhausted t _ h),
   runCalls_exhausted _ calls (getRemaining_exhausted t)⟩

/-- Claim C9 on the object that has tokenized the line `LED`: `getNext` returns none, and so do
three further calls. -/
theorem C9_exhausted_tokenizer_stays_exhausted_witness :
    (getNext termLedTokenized).2 = none ∧
    ∀ r ∈ (runCalls (getNext termLedTokenized).1
      [TokCall.getNext, TokCall.getRemaining, TokCall.getNext]).2, r = none :=
  ⟨by decide,
   ((C9_exhausted_tokenizer_stays_exhausted termLedTokenized
      [TokCall.getNext, TokCall.getRemaining, TokCall.getNext]).1 (by decide)).2⟩

/-! ### Claim C10 -/

/-- Claim C10. For a line read into an empty receive buffer whose command token is found in
the table, with entry `e`: when the callback of `e` makes `k` `getNext` calls and then calls
`getRemaining`, that call returns the string left after the command token, `k` further
tokens and the single delimiter that ended each of them, unsplit and with its leading and
inner delimiters; it returns none exactly when that string is empty. -/
theorem C10_getRemaining_returns_rest (t : SerialTerminal) (m : Bool) (line tok : List Nat)
    (args : List (List Nat)) (e : SerialTerminalCallback) (k : Nat)
    (hempty : RxEmpty t) (hnl : t._newlineChar ∉ line)
    (htok : tokensOf (cstr t._delimiter) (captureFrom 0 line) = tok :: args)
    (hfind : findCommand tok (commandTable t) = some e)
    (hcalls : e.function.calls = List.replicate k TokCall.getNext ++ [TokCall.getRemaining]) :
    handlerEvents (readSerialLoop t m (line ++ [t._newlineChar])).events =
      [Event.command e.function ((List.range k).map (fun i => args[i]?) ++
        [restOrNone ((dropToken (cstr t._delimiter))^[k + 1] (captureFrom 0 line))])] ∧
    (restOrNone ((dropToken (cstr t._delimiter))^[k + 1] (captureFrom 0 line)) = none ↔
      (dropToken (cstr t._delimiter))^[k + 1] (captureFrom 0 line) = []) := by
  constructor
  · rw [handlerEvents_line t m line hempty hnl, lineDispatch_found t m _ tok args e htok hfind,
      hcalls, (absRun_append _ _ _ _).1, (absRun_getNext _ _ k).1, (absRun_getNext _ _ k).2,
      (nextToken_of_tokens _ _ _ _ htok).2]
    simp only [absRun, absCall, nextToken_no_delim, Function.iterate_succ, Function.comp_apply]
  · exact restOrNone_eq_none _

/-- Claim C10 on the line `LED ON  a b` with `LED` registered for a callback that calls
`getNext` and then `getRemaining`: the latter returns ` a b`, leading delimiter included. -/
theorem C10_getRemaining_returns_rest_witness :
    RxEmpty termLedRest ∧
    tokensOf (cstr termLedRest._delimiter) (captureFrom 0 lineLedOnAB)
      = nameLED :: [[79, 78], [97], [98]] ∧
    (dropToken (cstr termLedRest._delimiter))^[1 + 1] (captureFrom 0 lineLedOnAB)
      = [32, 97, 32, 98] ∧
    handlerEvents (readSerialLoop termLedRest false (lineLedOnAB ++ [10])).events =
      [Event.command cbNextRest [some [79, 78], some [32, 97, 32, 98]]] :=
  ⟨by decide, by decide, by decide,
   (C10_getRemaining_returns_rest termLedRest false lineLedOnAB nameLED [[79, 78], [97], [98]]
     (entryOf nameLED cbNextRest) 1 (by decide) (by decide) (by decide) (by decide)
     (by decide)).1⟩

/-! ### Claim C11 -/

/-- Claim C11. For a line read into an empty receive buffer whose captured content is empty
or made of delimiter characters only, the newline invokes no command callback and not the
default callback, whatever the command table, the default callback and the value `m` of the
local `matched` are. -/
theorem C11_blank_line_invokes_no_handler (t : SerialTerminal) (m : Bool) (line : List Nat)
    (hempty : RxEmpty t) (hnl : t._newlineChar ∉ line)
    (hblank : ∀ c ∈ captureFrom 0 line, c ∈ cstr t._delimiter) :
    handlerEvents (readSerialLoop t m (line ++ [t._newlineChar])).events = [] := by
  rw [handlerEvents_line t m line hempty hnl, lineDispatch_no_token t m _ hblank]

/-- Claim C11 on the terminal with `LED` registered and a default callback, for the line of
three spaces and for the empty line. -/
theorem C11_blank_line_invokes_no_handler_witness :
    RxEmpty termLedDefault ∧
    (∀ c ∈ captureFrom 0 [32, 32, 32], c ∈ cstr termLedDefault._delimiter) ∧
    handlerEvents (readSerialLoop termLedDefault false ([32, 32, 32] ++ [10])).events = [] ∧
    handlerEvents (readSerialLoop termLedDefault false ([] ++ [10])).events = [] :=
  ⟨by decide, by decide,
   C11_blank_line_invokes_no_handler termLedDefault false [32, 32, 32] (by decide) (by decide)
     (by decide),
   C11_blank_line_invokes_no_handler termLedDefault false [] (by decide) (by decide)
     (by decide)⟩

/-! ### Claim C12 -/

/-- Claim C12. In every state of the object, with echo on or off, and for every value of the
local `matched`: reading a character that is neither the newline character nor printable
leaves the whole object unchanged (receive buffer, its length, tokenizer position, command
table and all other members) and produces no event, neither output nor the invocation of a
callback; the same holds for any run of such characters. -/
theorem C12_unprintable_char_discarded (t : SerialTerminal) (m : Bool) (c : Nat)
    (cs : List Nat) (hc : c ≠ t._newlineChar) (hp : isprint c = false)
    (hcs : ∀ x ∈ cs, x ≠ t._newlineChar ∧ isprint x = false) :
    readSerialStep t m c = ⟨t, m, []⟩ ∧ readSerialLoop t m cs = ⟨t, m, []⟩ := by
  refine ⟨readSerialStep_discard t m c hc hp, ?_⟩
  induction cs with
  | nil => rfl
  | cons x xs ih =>
    have hx := hcs x (by simp)
    simp only [readSerialLoop, readSerialStep_discard t m x hx.1 hx.2, List.nil_append]
    exact ih (fun y hy => hcs y (by simp [hy]))

/-- Claim C12 on a terminal with echo enabled that has stored `LE`: the characters 7 (bell),
13 (carriage return) and 200 change nothing and are not echoed. -/
theorem C12_unprintable_char_discarded_witness :
    termLedDefaultEcho.doCharEcho = true ∧
    readSerialStep (readSerialLoop termLedDefaultEcho false [76, 69]).term false 7 =
      ⟨(readSerialLoop termLedDefaultEcho false [76, 69]).term, false, []⟩ ∧
    readSerialLoop (readSerialLoop termLedDefaultEcho false [76, 69]).term false [7, 13, 200] =
      ⟨(readSerialLoop termLedDefaultEcho false [76, 69]).term, false, []⟩ :=
  ⟨rfl,
   (C12_unprintable_char_discarded (readSerialLoop termLedDefaultEcho false [76, 69]).term
      false 7 [7, 13, 200] (by decide) (by decide) (by decide)).1,
   (C12_unprintable_char_discarded (readSerialLoop termLedDefaultEcho false [76, 69]).term
      false 7 [7, 13, 200] (by decide) (by decide) (by decide)).2⟩

/-! ### Claim C13 -/

/-- Claim C14, as stated, fails: with echo enabled, 33 letters `A` read into an empty buffer
are all echoed, 33 characters, while the buffer captures 32 of them. -/
theorem C14_counterexample_dropped_char_echoed :
    termEcho.doCharEcho = true ∧ RxEmpty termEcho ∧
    (readSerialLoop termEcho false lineThirtyThree).events
      = List.replicate 33 (Event.print 65) ∧
    cstr (readSerialLoop termEcho false lineThirtyThree).term._rxBuffer
      = List.replicate 32 65 := by
  have h := readSerialLoop_echo termEcho false lineThirtyThree (by decide) rfl (by decide)
  refine ⟨rfl, by decide, ?_, ?_⟩
  · rw [h.1]; decide
  · rw [h.2]; decide

/-- Claim C14, amended. With echo enabled, for every sequence of characters without the
newline character read into an empty receive buffer: the characters written back are exactly
the printable characters read, in order, also those that are dropped because the buffer is
full; the buffer captures the first 32 of them; so the echo is the captured content as long
as at most 32 printable characters were read. -/
theorem C14_echo_all_printable (t : SerialTerminal) (m : Bool) (line : List Nat)
    (hempty : RxEmpty t) (hecho : t.doCharEcho = true) (hnl : t._newlineChar ∉ line) :
    (readSerialLoop t m line).events = (line.filter isprint).map Event.print ∧
    cstr (readSerialLoop t m line).term._rxBuffer
      = (line.filter isprint).take ST_RX_BUFFER_SIZE ∧
    ((line.filter isprint).length ≤ ST_RX_BUFFER_SIZE →
      (readSerialLoop t m line).events
        = (cstr (readSerialLoop t m line).term._rxBuffer).map Event.print) := by
  have h := readSerialLoop_echo t m line hempty hecho hnl
  refine ⟨h.1, h.2, fun hle => ?_⟩
  rw [h.1, h.2, List.take_of_length_le hle]

/-- Claim C14, amended, on the terminal with echo enabled and the characters `L`, bell, `E`:
the two printable characters are echoed and captured. -/
theorem C14_echo_all_printable_witness :
    RxEmpty termEcho ∧ termEcho.doCharEcho = true ∧
    (readSerialLoop termEcho false [76, 7, 69]).events = [Event.print 76, Event.print 69] ∧
    cstr (readSerialLoop termEcho false [76, 7, 69]).term._rxBuffer = [76, 69] :=
  ⟨by decide, rfl,
   (C14_echo_all_printable termEcho false [76, 7, 69] (by decide) rfl (by decide)).1,
   (C14_echo_all_printable termEcho false [76, 7, 69] (by decide) rfl (by decide)).2.1⟩

/-! ### Claim C15 -/

/-- Claim C15, as stated, fails in two ways. (1) With the tab character as delimiter and
`LED` registered, the line `LED`, tab, `ON` invokes no callback: the tab is not printable
and is not stored, so the captured line is `LEDON`. (2) With `LONGCOMMAND1` registered
before `LONGCOMM`, the line `LONGCOMM ON` invokes the callback of `LONGCOMMAND1`. -/
theorem C15_counterexample_tab_delimiter :
    (termTabLed._delimiter = [9, 0] ∧ RxEmpty termTabLed ∧
      commandTable termTabLed = [entryOf nameLED cbTwoNext] ∧
      (readSerial termTabLed (nameLED ++ 9 :: [79, 78] ++ [10])).2 = []) ∧
    (commandTable termLongShadow
        = [entryOf nameLong1 cbPlain, entryOf nameLongComm cbTwoNext] ∧
      (readSerial termLongShadow (nameLongComm ++ 32 :: [79, 78] ++ [10])).2
        = [Event.command cbPlain []]) := by
  refine ⟨⟨?_, ?_, ?_, ?_⟩, ?_, ?_⟩ <;> decide

/-- Claim C15, amended. For every printable delimiter character `d` given to the constructor,
distinct from the newline character, and every line `cmd d arg` of at most 32 characters,
where `cmd` and `arg` are non-empty strings of printable characters containing neither `d`
nor the newline character, and `cmd` is registered for `f` in a command table made of the
entries `addCommand` writes, no name registered before it agreeing with `cmd` on the first 8
characters: read into an empty receive buffer, the line invokes `f` and no other command or
default callback, and the first `getNext` call of `f` returns `arg`. -/
theorem C15_cmd_delim_arg_dispatched (t : SerialTerminal) (m : Bool) (d : Nat) (cmd arg : List Nat)
    (f : Callback) (before after : List (List Nat × Callback)) (calls : List TokCall)
    (hempty : RxEmpty t) (hdelim : t._delimiter = [d, 0]) (hd : isprint d = true)
    (hdnl : d ≠ t._newlineChar)
    (hcmd : cmd ≠ []) (harg : arg ≠ [])
    (hcmdp : ∀ c ∈ cmd, isprint c = true ∧ c ≠ d ∧ c ≠ t._newlineChar)
    (hargp : ∀ c ∈ arg, isprint c = true ∧ c ≠ d ∧ c ≠ t._newlineChar)
    (hlen : (cmd ++ d :: arg).length ≤ ST_RX_BUFFER_SIZE)
    (htable : commandTable t = (before ++ (cmd, f) :: after).map (fun r => entryOf r.1 r.2))
    (hbefore : ∀ r ∈ before,
      (cstr r.1).take ST_NUM_COMMAND_CHARS ≠ cmd.take ST_NUM_COMMAND_CHARS)
    (hcalls : f.calls = TokCall.getNext :: calls) :
    ∃ returned,
      handlerEvents (readSerialLoop t m ((cmd ++ d :: arg) ++ [t._newlineChar])).events =
        [Event.command f (some arg :: returned)] := by
  have hd0 : d ≠ 0 := isprint_ne_zero hd
  have hdel : cstr t._delimiter = [d] := by rw [hdelim]; exact cstr_delimiter d hd0
  have hnl : t._newlineChar ∉ cmd ++ d :: arg := by
    intro h
    rcases List.mem_append.1 h with h1 | h1
    · exact (hcmdp _ h1).2.2 rfl
    · rcases List.mem_cons.1 h1 with h2 | h2
      · exact hdnl h2.symm
      · exact (hargp _ h2).2.2 rfl
  have hprint : ∀ c ∈ cmd ++ d :: arg, isprint c = true := by
    intro c h
    rcases List.mem_append.1 h with h1 | h1
    · exact (hcmdp _ h1).1
    · rcases List.mem_cons.1 h1 with h2 | h2
      · rw [h2]; exact hd
      · exact (hargp _ h2).1
  have hcap : captureFrom 0 (cmd ++ d :: arg) = cmd ++ d :: arg := by
    rw [captureFrom_printable_line _ hprint, List.take_of_length_le hlen]
  have htok : tokensOf (cstr t._delimiter) (captureFrom 0 (cmd ++ d :: arg)) = cmd :: [arg] := by
    rw [hcap, hdel, tokensOf_first [d] cmd arg d (fun c hc => by simpa using (hcmdp c hc).2.1)
      hcmd (by simp),
      tokensOf_single [d] arg (fun c hc => by simpa using (hargp c hc).2.1) harg]
  have hnz : ∀ c ∈ cmd, c ≠ 0 := fun c hc => isprint_ne_zero (hcmdp c hc).1
  have htable2 : commandTable t =
      before.map (fun r => entryOf r.1 r.2) ++ entryOf cmd f ::
        after.map (fun r => entryOf r.1 r.2) := by
    rw [htable]; simp
  have hpre : ∀ x ∈ before.map (fun r => entryOf r.1 r.2),
      strncmp cmd x.command ST_NUM_COMMAND_CHARS ≠ 0 := by
    intro x hx
    obtain ⟨r, hr, rfl⟩ := List.mem_map.1 hx
    intro h0
    exact hbefore r hr ((strncmp_padded cmd (cstr r.1) _ hnz (cstr_ne_zero r.1)).1 h0).symm
  have he : strncmp cmd (entryOf cmd f).command ST_NUM_COMMAND_CHARS = 0 := by
    refine (strncmp_padded cmd (cstr cmd) _ hnz (cstr_ne_zero cmd)).2 ?_
    rw [cstr_of_ne_zero cmd hnz]
  have hfind : findCommand cmd (commandTable t) = some (entryOf cmd f) := by
    rw [htable2]; exact findCommand_first cmd _ _ _ hpre he
  have hrest := (nextToken_of_tokens _ _ _ _ htok).2
  have hnext := (nextToken_of_tokens _ _ _ _ hrest).1
  refine ⟨(absRun (cstr t._delimiter)
    (nextToken (cstr t._delimiter)
      (dropToken (cstr t._delimiter) (captureFrom 0 (cmd ++ d :: arg)))).2 calls).1, ?_⟩
  rw [handlerEvents_line t m _ hempty hnl, lineDispatch_found t m _ cmd [arg] _ htok hfind]
  show [Event.command f (absRun _ _ f.calls).1] = _
  rw [hcalls]
  simp only [absRun, absCall, hnext]

/-- Claim C15, amended, on the delimiter `,` and the line `LED,ON`. -/
theorem C15_cmd_delim_arg_dispatched_witness :
    RxEmpty (addCommand (new 10 44 sampleUninit) nameLED cbTwoNext) ∧
    isprint 44 = true ∧
    ∃ returned,
      handlerEvents (readSerialLoop (addCommand (new 10 44 sampleUninit) nameLED cbTwoNext)
        false ((nameLED ++ 44 :: [79, 78]) ++ [10])).events =
        [Event.command cbTwoNext (some [79, 78] :: returned)] :=
  ⟨by decide, by decide,
   C15_cmd_delim_arg_dispatched (addCommand (new 10 44 sampleUninit) nameLED cbTwoNext) false
     44 nameLED [79, 78] cbTwoNext [] [] [TokCall.getNext] (by decide) (by decide) (by decide)
     (by decide) (by decide) (by decide) (by decide) (by decide) (by decide) (by decide)
     (by decide) (by decide)⟩

/-! ### Claim C16 -/

/-- Claim C16. In every state of the object whose receive buffer is the 33 byte array, for
every value of the local `matched` and whatever the callbacks do: the object left by the
newline branch of `readSerial` is `clearBuffer` applied to the object the callbacks leave,
so its receive buffer is empty, with length 0 and first byte NUL, as it is after
`clearBuffer`; and for every following line, the content tokenized at its newline is made of
the printable characters of that line only, and its events are those the same line produces
on `clearBuffer t`. -/
theorem C16_buffer_empty_after_newline (t : SerialTerminal) (m : Bool) (line : List Nat)
    (hlen : t._rxBuffer.length = ST_RX_BUFFER_SIZE + 1) (hnl : t._newlineChar ∉ line) :
    (readSerialStep t m t._newlineChar).term = clearBuffer (processLine t m).term ∧
    RxEmpty (readSerialStep t m t._newlineChar).term ∧
    RxEmpty (clearBuffer t) ∧
    cstr (readSerialLoop (readSerialStep t m t._newlineChar).term
      (readSerialStep t m t._newlineChar).matched line).term._rxBuffer = captureFrom 0 line ∧
    (readSerialLoop (readSerialStep t m t._newlineChar).term
      (readSerialStep t m t._newlineChar).matched (line ++ [t._newlineChar])).events =
      (readSerialLoop (clearBuffer t)
        (readSerialStep t m t._newlineChar).matched (line ++ [t._newlineChar])).events := by
  obtain ⟨e, hem⟩ := readSerialStep_newline_rxEmpty t m hlen
  have hcfg : config (readSerialStep t m t._newlineChar).term = config (clearBuffer t) :=
    readSerialStep_frame t m _
  have hf := config_fields (readSerialStep_frame t m t._newlineChar)
  have hnl2 : (readSerialStep t m t._newlineChar).term._newlineChar ∉ line := by
    rw [hf.2.2.1]; exact hnl
  refine ⟨e, hem, rxEmpty_clearBuffer t hlen, ?_, ?_⟩
  · have := (readSerialLoop_chars _ (readSerialStep t m t._newlineChar).matched line []
      (captured_of_rxEmpty hem) hnl2).1
    simpa using captured_cstr this
  · have := readSerialLoop_line_config _ (clearBuffer t)
      (readSerialStep t m t._newlineChar).matched line hem (rxEmpty_clearBuffer t hlen) hcfg hnl2
    rw [hf.2.2.1] at this
    exact this

/-- Claim C16 on the terminal that has stored `LED ON`: after the newline the buffer is empty,
and the following line `foo` is tokenized as `foo`. -/
theorem C16_buffer_empty_after_newline_witness :
    (readSerialLoop termLedDefault false lineLedOn).term._rxBuffer.length
      = ST_RX_BUFFER_SIZE + 1 ∧
    RxEmpty (readSerialStep (readSerialLoop termLedDefault false lineLedOn).term false 10).term ∧
    cstr (readSerialLoop
      (readSerialStep (readSerialLoop termLedDefault false lineLedOn).term false 10).term
      (readSerialStep (readSerialLoop termLedDefault false lineLedOn).term false 10).matched
      [102, 111, 111]).term._rxBuffer = [102, 111, 111] :=
  ⟨by decide,
   (C16_buffer_empty_after_newline (readSerialLoop termLedDefault false lineLedOn).term false
     [102, 111, 111] (by decide) (by decide)).2.1,
   (C16_buffer_empty_after_newline (readSerialLoop termLedDefault false lineLedOn).term false
     [102, 111, 111] (by decide) (by decide)).2.2.2.1⟩

/-! ### Claim C17 -/

/-- Claim C17 fails on the code. The constructor initialises `_defaultHandler` but neither
`_postCommandHandler` nor `doCharEcho`: constructed over memory that holds other values
there, the terminal keeps them, and `readSerial` on `A` and a newline echoes the character
and the line break and invokes the post command callback, although no setter was called. -/
theorem C17_constructor_leaves_members_uninitialised :
    (new 10 32 dirtyUninit)._defaultHandler = none ∧
    (new 10 32 dirtyUninit)._postCommandHandler = some cbPlain ∧
    (new 10 32 dirtyUninit).doCharEcho = true ∧
    (readSerial (new 10 32 dirtyUninit) [65, 10]).2
      = [Event.print 65, Event.println, Event.postCommand cbPlain []] := by
  refine ⟨?_, ?_, ?_, ?_⟩ <;> decide

/-! ### Claim C18 -/

/-- Claim C18 fails on the code. On the terminal with `LED` registered and a default callback,
one `readSerial` call that drains the lines `LED` and `foo` invokes the callback of `LED`
only; a call that drains `LED` followed by a call that drains `foo` also invokes the default
callback with `foo`: the local `matched` survives from line to line within a call. -/
theorem C18_split_across_polls_differs :
    (readSerial termLedDefault ([76, 69, 68, 10] ++ [102, 111, 111, 10])).2
      = [Event.command cbPlain []] ∧
    (readSerial termLedDefault [76, 69, 68, 10]).2 ++
      (readSerial (readSerial termLedDefault [76, 69, 68, 10]).1 [102, 111, 111, 10]).2
      = [Event.command cbPlain [], Event.defaultHandler cbOther [102, 111, 111] []] := by
  constructor <;> decide

end ErriezSerialTerminal
